import Mathlib

/-!
Verification of the agent execution core of `kon` (an interactive terminal
coding assistant): the session store (`src/kon/session.py`), the turn
executor (`src/kon/turn.py`) and the agent loop / compaction check
(`src/kon/loop.py`), shallowly embedded in Lean.

Sessions are append-only JSONL logs.  We model a JSON value as the
inductive `Jv`, a file line as `Line` (blank / unparsable / a JSON value),
and translate the writing and loading logic of `session.py` directly.
The message and content types live in `kon/core/types.py`, which is not
part of the sources here; those definitions are modelled from the
specification (§3 data model, §6 session file format) and from their
construction sites in `session.py`, `turn.py` and the tests.
-/

namespace Kon

/-- Modelled from the spec: a JSON value as written by `json.dumps` /
pydantic `model_dump_json` and read back by `json.loads` (§6 session file
format: one JSON object per line). -/
inductive Jv where
  | null
  | bool (b : Bool)
  | num (n : Int)
  | str (s : String)
  | arr (elems : List Jv)
  | obj (fields : List (String × Jv))

/-- Field lookup on a decoded JSON object (`data.get(key)` on a dict). -/
def lookupField : List (String × Jv) → String → Option Jv
  | [], _ => none
  | (k, v) :: rest, key => if k == key then some v else lookupField rest key

/-- `data.get(key)` — `none` when the value is not a JSON object. -/
def Jv.get : Jv → String → Option Jv
  | .obj fields, key => lookupField fields key
  | _, _ => none

def Jv.asStr : Jv → Option String
  | .str s => some s
  | _ => none

def Jv.asInt : Jv → Option Int
  | .num n => some n
  | _ => none

def Jv.asBool : Jv → Option Bool
  | .bool b => some b
  | _ => none

/-- Required string field (pydantic `x: str`). -/
def reqStr (v : Jv) (key : String) : Option String :=
  (v.get key).bind Jv.asStr

/-- Required nullable string field (pydantic `x: str | None`, no default). -/
def reqNullableStr (v : Jv) (key : String) : Option (Option String) :=
  match v.get key with
  | some .null => some none
  | some (.str s) => some (some s)
  | _ => none

/-- Optional nullable string field (pydantic `x: str | None = None`). -/
def optNullableStr (v : Jv) (key : String) : Option (Option String) :=
  match v.get key with
  | none => some none
  | some .null => some none
  | some (.str s) => some (some s)
  | _ => none

/-- Optional int field with a default (pydantic `x: int = d`). -/
def optInt (v : Jv) (key : String) (dflt : Int) : Option Int :=
  match v.get key with
  | none => some dflt
  | some (.num n) => some n
  | _ => none

/-- Optional bool field with a default (pydantic `x: bool = d`). -/
def optBool (v : Jv) (key : String) (dflt : Bool) : Option Bool :=
  match v.get key with
  | none => some dflt
  | some (.bool b) => some b
  | _ => none

/-- Optional nullable dict field (pydantic `x: dict[str, Any] | None = None`). -/
def optNullableObj (v : Jv) (key : String) : Option (Option (List (String × Jv))) :=
  match v.get key with
  | none => some none
  | some .null => some none
  | some (.obj fields) => some (some fields)
  | _ => none

def encodeOptStr : Option String → Jv
  | none => .null
  | some s => .str s

/-! ## Message model (modelled from the spec; `kon/core/types.py` is not in src/) -/

/-- Modelled from the spec: stop reasons (§3: stop / length / tool_use /
error / interrupted). -/
inductive StopReason where
  | stop
  | length
  | tool_use
  | error
  | interrupted
deriving DecidableEq

def StopReason.toWire : StopReason → String
  | .stop => "stop"
  | .length => "length"
  | .tool_use => "tool_use"
  | .error => "error"
  | .interrupted => "interrupted"

def decodeStopReason : String → Option StopReason
  | "stop" => some .stop
  | "length" => some .length
  | "tool_use" => some .tool_use
  | "error" => some .error
  | "interrupted" => some .interrupted
  | _ => none

/-- Modelled from the spec: token usage (§3; field names from
`loop.py:_add_usage` and the mock provider). -/
structure Usage where
  input_tokens : Int := 0
  output_tokens : Int := 0
  cache_read_tokens : Int := 0
  cache_write_tokens : Int := 0
deriving DecidableEq

/-- Modelled from the spec: image content part (fields from
`openai_completions.py`: `img.data`, `img.mime_type`). -/
structure ImageContent where
  data : String
  mime_type : String
deriving DecidableEq

/-- Modelled from the spec: text content part. -/
structure TextContent where
  text : String
deriving DecidableEq

/-- Modelled from the spec: thinking content part (§3: text plus optional
provider-specific signature tag). -/
structure ThinkingContent where
  thinking : String
  signature : Option String := none
deriving DecidableEq

/-- Modelled from the spec: a tool call (id, name, structured arguments). -/
structure ToolCall where
  id : String
  name : String
  arguments : List (String × Jv)

/-- Modelled from the spec: user content part — text or image (§3). -/
inductive UserPart where
  | text (t : TextContent)
  | image (img : ImageContent)

/-- Modelled from the spec: user message content — a plain string or an
ordered list of text/image parts (§3). -/
inductive UserContent where
  | str (s : String)
  | parts (ps : List UserPart)

/-- Modelled from the spec: assistant content part — thinking, text or
tool-call (§3). -/
inductive AssistantContent where
  | text (t : TextContent)
  | thinking (t : ThinkingContent)
  | toolCall (tc : ToolCall)

/-- Modelled from the spec: tool-result message (§3: tool_call_id,
tool_name, text/image parts, optional display string, is_error flag). -/
structure ToolResultMessage where
  tool_call_id : String
  tool_name : String
  content : List UserPart
  display : Option String := none
  is_error : Bool := false

/-- Modelled from the spec: a message — user, assistant or tool-result
(§3); the assistant carries optional usage and a stop reason. -/
inductive Message where
  | user (content : UserContent)
  | assistant (content : List AssistantContent) (usage : Option Usage)
      (stop_reason : Option StopReason)
  | toolResult (m : ToolResultMessage)

/-! ## Wire encoding (modelled from the spec §6 session file format) -/

def encodeUsage (u : Usage) : Jv :=
  .obj [("input_tokens", .num u.input_tokens), ("output_tokens", .num u.output_tokens),
    ("cache_read_tokens", .num u.cache_read_tokens),
    ("cache_write_tokens", .num u.cache_write_tokens)]

def decodeUsage (v : Jv) : Option Usage := do
  let i ← optInt v "input_tokens" 0
  let o ← optInt v "output_tokens" 0
  let cr ← optInt v "cache_read_tokens" 0
  let cw ← optInt v "cache_write_tokens" 0
  some ⟨i, o, cr, cw⟩

def encodeUserPart : UserPart → Jv
  | .text t => .obj [("type", .str "text"), ("text", .str t.text)]
  | .image img =>
    .obj [("type", .str "image"), ("data", .str img.data), ("mime_type", .str img.mime_type)]

def decodeUserPart (v : Jv) : Option UserPart :=
  match v.get "type" with
  | some (.str "text") => do
    let t ← reqStr v "text"
    some (.text ⟨t⟩)
  | some (.str "image") => do
    let d ← reqStr v "data"
    let m ← reqStr v "mime_type"
    some (.image ⟨d, m⟩)
  | _ => none

def encodeAssistantContent : AssistantContent → Jv
  | .text t => .obj [("type", .str "text"), ("text", .str t.text)]
  | .thinking t =>
    .obj [("type", .str "thinking"), ("thinking", .str t.thinking),
      ("signature", encodeOptStr t.signature)]
  | .toolCall tc =>
    .obj [("type", .str "tool_call"), ("id", .str tc.id), ("name", .str tc.name),
      ("arguments", .obj tc.arguments)]

def decodeAssistantContent (v : Jv) : Option AssistantContent :=
  match v.get "type" with
  | some (.str "text") => do
    let t ← reqStr v "text"
    some (.text ⟨t⟩)
  | some (.str "thinking") => do
    let t ← reqStr v "thinking"
    let sig ← optNullableStr v "signature"
    some (.thinking ⟨t, sig⟩)
  | some (.str "tool_call") => do
    let id ← reqStr v "id"
    let name ← reqStr v "name"
    match v.get "arguments" with
    | some (.obj args) => some (.toolCall ⟨id, name, args⟩)
    | _ => none
  | _ => none

/-- Element-wise decoding of a JSON array, failing when any element fails
(pydantic validating a `list[...]` field). -/
def decodeList (f : Jv → Option α) : List Jv → Option (List α)
  | [] => some []
  | v :: rest => do
    let a ← f v
    let as ← decodeList f rest
    some (a :: as)

def encodeUserContent : UserContent → Jv
  | .str s => .str s
  | .parts ps => .arr (ps.map encodeUserPart)

def decodeUserContent : Jv → Option UserContent
  | .str s => some (.str s)
  | .arr items => do
    let ps ← decodeList decodeUserPart items
    some (.parts ps)
  | _ => none

def encodeMessage : Message → Jv
  | .user c => .obj [("role", .str "user"), ("content", encodeUserContent c)]
  | .assistant c usage sr =>
    .obj [("role", .str "assistant"), ("content", .arr (c.map encodeAssistantContent)),
      ("usage", match usage with | none => .null | some u => encodeUsage u),
      ("stop_reason", encodeOptStr (sr.map StopReason.toWire))]
  | .toolResult m =>
    .obj [("role", .str "tool_result"), ("tool_call_id", .str m.tool_call_id),
      ("tool_name", .str m.tool_name), ("content", .arr (m.content.map encodeUserPart)),
      ("display", encodeOptStr m.display), ("is_error", .bool m.is_error)]

def decodeOptStopReason (v : Jv) (key : String) : Option (Option StopReason) := do
  let s ← optNullableStr v key
  match s with
  | none => some none
  | some s => do
    let r ← decodeStopReason s
    some (some r)

def decodeOptUsage (v : Jv) (key : String) : Option (Option Usage) :=
  match v.get key with
  | none => some none
  | some .null => some none
  | some u => do
    let u ← decodeUsage u
    some (some u)

def decodeMessage (v : Jv) : Option Message :=
  match v.get "role" with
  | some (.str "user") => do
    let raw ← v.get "content"
    let c ← decodeUserContent raw
    some (.user c)
  | some (.str "assistant") => do
    let raw ← v.get "content"
    match raw with
    | .arr items => do
      let parts ← decodeList decodeAssistantContent items
      let usage ← decodeOptUsage v "usage"
      let sr ← decodeOptStopReason v "stop_reason"
      some (.assistant parts usage sr)
    | _ => none
  | some (.str "tool_result") => do
    let id ← reqStr v "tool_call_id"
    let name ← reqStr v "tool_name"
    let raw ← v.get "content"
    match raw with
    | .arr items => do
      let parts ← decodeList decodeUserPart items
      let display ← optNullableStr v "display"
      let isErr ← optBool v "is_error" false
      some (.toolResult ⟨id, name, parts, display, isErr⟩)
    | _ => none
  | _ => none

/-! ## Session entries (`session.py`) -/

/-- `SessionHeader` (`session.py:33`): schema version, session id, creation
timestamp, working directory. -/
structure SessionHeader where
  version : Int := 1
  id : String
  timestamp : String
  cwd : String

/-- `EntryBase` (`session.py:41`): unique entry id, id of the previous
entry (null for the first), ISO-8601 timestamp. -/
structure EntryBase where
  id : String
  parent_id : Option String
  timestamp : String

/-- The `SessionEntry` union (`session.py:47-92`): one constructor per
pydantic entry model, discriminated on the wire by its `type` field. -/
inductive SessionEntry where
  | message (base : EntryBase) (message : Message)
  | thinkingLevelChange (base : EntryBase) (thinking_level : String)
  | modelChange (base : EntryBase) (provider : String) (model_id : String)
      (base_url : Option String)
  | compaction (base : EntryBase) (summary : String) (first_kept_entry_id : String)
      (tokens_before : Int) (details : Option (List (String × Jv)))
  | customMessage (base : EntryBase) (custom_type : String) (content : String)
      (display : Bool) (details : Option (List (String × Jv)))
  | sessionInfo (base : EntryBase) (name : Option String)

def SessionEntry.base : SessionEntry → EntryBase
  | .message b _ => b
  | .thinkingLevelChange b _ => b
  | .modelChange b _ _ _ => b
  | .compaction b _ _ _ _ => b
  | .customMessage b _ _ _ _ => b
  | .sessionInfo b _ => b

def SessionEntry.entryId (e : SessionEntry) : String := e.base.id

def SessionEntry.isCompaction : SessionEntry → Bool
  | .compaction _ _ _ _ _ => true
  | _ => false

def SessionEntry.isMessage : SessionEntry → Bool
  | .message _ _ => true
  | _ => false

/-- `isinstance(e, MessageEntry) and e.message.role == "assistant"`
(`session.py:200-202`). -/
def SessionEntry.isAssistantMessage : SessionEntry → Bool
  | .message _ (.assistant _ _ _) => true
  | _ => false

def encodeBase (b : EntryBase) : List (String × Jv) :=
  [("id", .str b.id), ("parent_id", encodeOptStr b.parent_id), ("timestamp", .str b.timestamp)]

def decodeBase (v : Jv) : Option EntryBase := do
  let id ← reqStr v "id"
  let pid ← reqNullableStr v "parent_id"
  let ts ← reqStr v "timestamp"
  some ⟨id, pid, ts⟩

def encodeOptObj : Option (List (String × Jv)) → Jv
  | none => .null
  | some fields => .obj fields

/-- `entry.model_dump_json()` (`session.py:211,221-223`), one JSON object
per entry with its discriminating `type` field. -/
def SessionEntry.encode : SessionEntry → Jv
  | .message b m => .obj (("type", .str "message") :: encodeBase b ++ [("message", encodeMessage m)])
  | .thinkingLevelChange b lvl =>
    .obj (("type", .str "thinking_level_change") :: encodeBase b ++
      [("thinking_level", .str lvl)])
  | .modelChange b provider modelId baseUrl =>
    .obj (("type", .str "model_change") :: encodeBase b ++
      [("provider", .str provider), ("model_id", .str modelId),
        ("base_url", encodeOptStr baseUrl)])
  | .compaction b summary firstKept tokens details =>
    .obj (("type", .str "compaction") :: encodeBase b ++
      [("summary", .str summary), ("first_kept_entry_id", .str firstKept),
        ("tokens_before", .num tokens), ("details", encodeOptObj details)])
  | .customMessage b customType content display details =>
    .obj (("type", .str "custom_message") :: encodeBase b ++
      [("custom_type", .str customType), ("content", .str content),
        ("display", .bool display), ("details", encodeOptObj details)])
  | .sessionInfo b name =>
    .obj (("type", .str "session_info") :: encodeBase b ++ [("name", encodeOptStr name)])

def encodeHeader (h : SessionHeader) : Jv :=
  .obj [("type", .str "header"), ("version", .num h.version), ("id", .str h.id),
    ("timestamp", .str h.timestamp), ("cwd", .str h.cwd)]

/-- `SessionHeader.model_validate(data)` (`session.py:456`). -/
def decodeHeader (v : Jv) : Option SessionHeader := do
  let version ← optInt v "version" 1
  let id ← reqStr v "id"
  let ts ← reqStr v "timestamp"
  let cwd ← reqStr v "cwd"
  some ⟨version, id, ts, cwd⟩

/-- `MessageEntry.model_validate(data)` (`session.py:458`). -/
def decodeMessageEntry (v : Jv) : Option SessionEntry := do
  let b ← decodeBase v
  let raw ← v.get "message"
  let m ← decodeMessage raw
  some (.message b m)

/-- `ThinkingLevelChangeEntry.model_validate(data)` (`session.py:460`). -/
def decodeThinkingLevelChangeEntry (v : Jv) : Option SessionEntry := do
  let b ← decodeBase v
  let lvl ← reqStr v "thinking_level"
  some (.thinkingLevelChange b lvl)

/-- `ModelChangeEntry.model_validate(data)` (`session.py:462`). -/
def decodeModelChangeEntry (v : Jv) : Option SessionEntry := do
  let b ← decodeBase v
  let provider ← reqStr v "provider"
  let modelId ← reqStr v "model_id"
  let baseUrl ← optNullableStr v "base_url"
  some (.modelChange b provider modelId baseUrl)

/-- `CompactionEntry.model_validate(data)` (`session.py:464`). -/
def decodeCompactionEntry (v : Jv) : Option SessionEntry := do
  let b ← decodeBase v
  let summary ← reqStr v "summary"
  let firstKept ← reqStr v "first_kept_entry_id"
  let tokens ← (v.get "tokens_before").bind Jv.asInt
  let details ← optNullableObj v "details"
  some (.compaction b summary firstKept tokens details)

/-- `CustomMessageEntry.model_validate(data)` (`session.py:466`). -/
def decodeCustomMessageEntry (v : Jv) : Option SessionEntry := do
  let b ← decodeBase v
  let customType ← reqStr v "custom_type"
  let content ← reqStr v "content"
  let display ← optBool v "display" true
  let details ← optNullableObj v "details"
  some (.customMessage b customType content display details)

/-- `SessionInfoEntry.model_validate(data)` (`session.py:468`). -/
def decodeSessionInfoEntry (v : Jv) : Option SessionEntry := do
  let b ← decodeBase v
  let name ← optNullableStr v "name"
  some (.sessionInfo b name)

/-! ## Loading (`Session.load`, `session.py:434-480`) -/

/-- One line of a session file, as seen after `line.strip()` and
`json.loads(line)`: blank, unparsable JSON (both skipped), or a JSON
value. -/
inductive Line where
  | blank
  | malformed
  | value (v : Jv)

/-- How `Session.load` can fail: no header line anywhere
(`ValueError("Invalid session file (no header)")`), a recognized entry
that fails pydantic validation (the `ValidationError` propagates), or a
line whose JSON is not an object (`data.get` raises `AttributeError`). -/
inductive LoadErr where
  | noHeader
  | badEntry
  | badLine
deriving DecidableEq

/-- What the body of the line loop does with one parsed JSON value. -/
inductive LineAction where
  | skip
  | header (h : SessionHeader)
  | entry (e : SessionEntry)
  | fail (err : LoadErr)

/-- The `entry_type` dispatch of `Session.load` (`session.py:453-468`):
choose the entry model by the `type` field, validate, silently ignore
unknown types; non-object JSON makes `data.get` raise. -/
def classifyValue (v : Jv) : LineAction :=
  match v with
  | .obj _ =>
    match v.get "type" with
    | some (.str "header") =>
      match decodeHeader v with
      | some h => .header h
      | none => .fail .badEntry
    | some (.str "message") =>
      match decodeMessageEntry v with
      | some e => .entry e
      | none => .fail .badEntry
    | some (.str "thinking_level_change") =>
      match decodeThinkingLevelChangeEntry v with
      | some e => .entry e
      | none => .fail .badEntry
    | some (.str "model_change") =>
      match decodeModelChangeEntry v with
      | some e => .entry e
      | none => .fail .badEntry
    | some (.str "compaction") =>
      match decodeCompactionEntry v with
      | some e => .entry e
      | none => .fail .badEntry
    | some (.str "custom_message") =>
      match decodeCustomMessageEntry v with
      | some e => .entry e
      | none => .fail .badEntry
    | some (.str "session_info") =>
      match decodeSessionInfoEntry v with
      | some e => .entry e
      | none => .fail .badEntry
    | _ => .skip
  | _ => .fail .badLine

/-- The line loop of `Session.load` (`session.py:442-471`): skip blank and
unparsable lines, dispatch on the `type` field, remember the latest
header, accumulate entries in order, and fail at the end when no header
was seen. -/
def loadLines : List Line → Option SessionHeader → List SessionEntry →
    Except LoadErr (SessionHeader × List SessionEntry)
  | [], none, _ => .error .noHeader
  | [], some h, entries => .ok (h, entries)
  | line :: rest, header?, entries =>
    match line with
    | .blank => loadLines rest header? entries
    | .malformed => loadLines rest header? entries
    | .value v =>
      match classifyValue v with
      | .skip => loadLines rest header? entries
      | .header h => loadLines rest (some h) entries
      | .entry e => loadLines rest header? (entries ++ [e])
      | .fail err => .error err

/-- The in-memory session a successful `Session.load` produces
(`session.py:473-480`): header, entries, and the leaf id set to the last
entry's id (or null for a header-only file). -/
structure LoadedSession where
  header : SessionHeader
  entries : List SessionEntry
  leafId : Option String

/-- `Session.load` over the lines of a file (`session.py:434-480`). -/
def load (lines : List Line) : Except LoadErr LoadedSession := do
  let (h, entries) ← loadLines lines none []
  pure ⟨h, entries, (entries.getLast?).map SessionEntry.entryId⟩

/-! ## Writing (`Session.__init__` / `_append_entry` / `_persist_entry` /
`_write_all`, `session.py:138-223`) -/

/-- The in-memory and on-disk state of a `Session`.  `disk = none` means
the session file does not exist; the `_by_id` index is not modelled (it
only backs `get_entry` and fresh-id generation, which no claim touches). -/
structure SessionState where
  header : Option SessionHeader
  entries : List SessionEntry
  leafId : Option String
  persist : Bool
  hasFile : Bool
  flushed : Bool
  disk : Option (List Line)

/-- `any(isinstance(e, MessageEntry) and e.message.role == "assistant" for e
in self._entries)` (`session.py:200-202`). -/
def hasAssistantEntry (entries : List SessionEntry) : Bool :=
  entries.any SessionEntry.isAssistantMessage

/-- `Session._write_all` (`session.py:213-223`): open-truncate-write the
header (when present) followed by every entry, one JSON line each. -/
def writeAllLines (s : SessionState) : List Line :=
  (s.header.map fun h => Line.value (encodeHeader h)).toList ++
    s.entries.map fun e => Line.value e.encode

/-- `Session._persist_entry` (`session.py:196-211`): skip when persistence
is disabled or no file path is assigned; defer until some assistant
message entry exists; first flush rewrites everything, later appends add
one line. -/
def persistEntry (s : SessionState) (e : SessionEntry) : SessionState :=
  if ¬ s.persist ∨ ¬ s.hasFile then s
  else if ¬ hasAssistantEntry s.entries then s
  else if ¬ s.flushed then { s with disk := some (writeAllLines s), flushed := true }
  else { s with disk := some ((s.disk.getD []) ++ [Line.value e.encode]) }

/-- `Session._append_entry` (`session.py:190-194`): record the entry,
update the leaf id, then persist. -/
def appendEntry (s : SessionState) (e : SessionEntry) : SessionState :=
  persistEntry { s with entries := s.entries ++ [e], leafId := some e.entryId } e

/-- One public `append_*` call (`session.py:225-302`).  Entry ids and
timestamps are random/clock values, so each operation carries them as
data. -/
inductive AppendOp where
  | message (id ts : String) (m : Message)
  | thinkingLevelChange (id ts level : String)
  | modelChange (id ts provider model_id : String) (base_url : Option String)
  | compaction (id ts summary first_kept : String) (tokens : Int)
      (details : Option (List (String × Jv)))
  | customMessage (id ts custom_type content : String) (display : Bool)
      (details : Option (List (String × Jv)))
  | sessionInfo (id ts name : String)

/-- Dispatch of one `append_*` call: each builds its entry with
`parent_id = self._leaf_id` and runs `_append_entry`. -/
def applyOp (s : SessionState) : AppendOp → SessionState
  | .message id ts m => appendEntry s (.message ⟨id, s.leafId, ts⟩ m)
  | .thinkingLevelChange id ts level => appendEntry s (.thinkingLevelChange ⟨id, s.leafId, ts⟩ level)
  | .modelChange id ts provider modelId baseUrl =>
    appendEntry s (.modelChange ⟨id, s.leafId, ts⟩ provider modelId baseUrl)
  | .compaction id ts summary firstKept tokens details =>
    appendEntry s (.compaction ⟨id, s.leafId, ts⟩ summary firstKept tokens details)
  | .customMessage id ts customType content display details =>
    appendEntry s (.customMessage ⟨id, s.leafId, ts⟩ customType content display details)
  | .sessionInfo id ts name => appendEntry s (.sessionInfo ⟨id, s.leafId, ts⟩ (some name))

/-- `Session.create` (`session.py:404-431`): fresh in-memory state; a file
path is assigned exactly when persistence is enabled, nothing is written
yet. -/
def SessionState.create (h : SessionHeader) (persist : Bool) : SessionState :=
  { header := some h, entries := [], leafId := none, persist := persist,
    hasFile := persist, flushed := false, disk := none }

/-- A session after an arbitrary sequence of `append_*` calls. -/
def runOps (h : SessionHeader) (persist : Bool) (ops : List AppendOp) : SessionState :=
  ops.foldl applyOp (SessionState.create h persist)

/-! ## Wire round-trip lemmas -/

theorem decodeStopReason_toWire (r : StopReason) : decodeStopReason r.toWire = some r := by
  cases r <;> rfl

theorem decodeUsage_encode (u : Usage) : decodeUsage (encodeUsage u) = some u := rfl

theorem decodeUserPart_encode (p : UserPart) : decodeUserPart (encodeUserPart p) = some p := by
  cases p <;> rfl

theorem decodeList_userPart_encode (ps : List UserPart) :
    decodeList decodeUserPart (ps.map encodeUserPart) = some ps := by
  induction ps with
  | nil => rfl
  | cons p rest ih =>
    simp [decodeList, decodeUserPart_encode, ih]

theorem decodeAssistantContent_encode (c : AssistantContent) :
    decodeAssistantContent (encodeAssistantContent c) = some c := by
  cases c with
  | text t => rfl
  | thinking t =>
    obtain ⟨th, sig⟩ := t
    cases sig <;> rfl
  | toolCall tc => rfl

theorem decodeList_assistantContent_encode (cs : List AssistantContent) :
    decodeList decodeAssistantContent (cs.map encodeAssistantContent) = some cs := by
  induction cs with
  | nil => rfl
  | cons c rest ih =>
    simp [decodeList, decodeAssistantContent_encode, ih]

theorem decodeUserContent_encode (c : UserContent) :
    decodeUserContent (encodeUserContent c) = some c := by
  cases c with
  | str s => rfl
  | parts ps =>
    simp [encodeUserContent, decodeUserContent, decodeList_userPart_encode]

theorem decodeMessage_encode (m : Message) : decodeMessage (encodeMessage m) = some m := by
  cases m with
  | user c =>
    simp [encodeMessage, decodeMessage, Jv.get, lookupField, decodeUserContent_encode]
  | assistant c usage sr =>
    cases usage <;> cases sr <;>
      simp [encodeMessage, decodeMessage, Jv.get, lookupField, encodeOptStr,
        decodeList_assistantContent_encode, decodeOptUsage, decodeOptStopReason,
        optNullableStr, encodeUsage, decodeUsage, optInt, decodeStopReason_toWire]
  | toolResult tr =>
    obtain ⟨id, name, content, display, isErr⟩ := tr
    cases display <;>
      simp [encodeMessage, decodeMessage, Jv.get, lookupField, encodeOptStr, reqStr,
        Jv.asStr, decodeList_userPart_encode, optNullableStr, optBool]

theorem decodeHeader_encode (h : SessionHeader) : decodeHeader (encodeHeader h) = some h := rfl

/-- Every entry written by `model_dump_json` is classified back to itself
by the load dispatch. -/
theorem classifyValue_encode (e : SessionEntry) : classifyValue e.encode = .entry e := by
  cases e with
  | message b m =>
    obtain ⟨id, pid, ts⟩ := b
    cases pid <;>
      simp [SessionEntry.encode, classifyValue, decodeMessageEntry, decodeBase, encodeBase,
        reqStr, reqNullableStr, Jv.get, lookupField, encodeOptStr, Jv.asStr,
        decodeMessage_encode]
  | thinkingLevelChange b lvl =>
    obtain ⟨id, pid, ts⟩ := b
    cases pid <;>
      simp [SessionEntry.encode, classifyValue, decodeThinkingLevelChangeEntry, decodeBase,
        encodeBase, reqStr, reqNullableStr, Jv.get, lookupField, encodeOptStr, Jv.asStr]
  | modelChange b provider modelId baseUrl =>
    obtain ⟨id, pid, ts⟩ := b
    cases pid <;> cases baseUrl <;>
      simp [SessionEntry.encode, classifyValue, decodeModelChangeEntry, decodeBase,
        encodeBase, reqStr, reqNullableStr, optNullableStr, Jv.get, lookupField,
        encodeOptStr, Jv.asStr]
  | compaction b summary firstKept tokens details =>
    obtain ⟨id, pid, ts⟩ := b
    cases pid <;> cases details <;>
      simp [SessionEntry.encode, classifyValue, decodeCompactionEntry, decodeBase,
        encodeBase, reqStr, reqNullableStr, optNullableObj, Jv.get, lookupField,
        encodeOptStr, encodeOptObj, Jv.asStr, Jv.asInt]
  | customMessage b customType content display details =>
    obtain ⟨id, pid, ts⟩ := b
    cases pid <;> cases details <;>
      simp [SessionEntry.encode, classifyValue, decodeCustomMessageEntry, decodeBase,
        encodeBase, reqStr, reqNullableStr, optNullableObj, optBool, Jv.get, lookupField,
        encodeOptStr, encodeOptObj, Jv.asStr]
  | sessionInfo b name =>
    obtain ⟨id, pid, ts⟩ := b
    cases pid <;> cases name <;>
      simp [SessionEntry.encode, classifyValue, decodeSessionInfoEntry, decodeBase,
        encodeBase, reqStr, reqNullableStr, optNullableStr, Jv.get, lookupField,
        encodeOptStr, Jv.asStr]

theorem classifyValue_encodeHeader (h : SessionHeader) :
    classifyValue (encodeHeader h) = .header h := rfl

/-- Walking encoded entries appends exactly those entries, in order. -/
theorem loadLines_encoded (es : List SessionEntry) (h : SessionHeader)
    (acc : List SessionEntry) :
    loadLines (es.map fun e => Line.value e.encode) (some h) acc = .ok (h, acc ++ es) := by
  induction es generalizing acc with
  | nil => simp [loadLines]
  | cons e rest ih =>
    simp [loadLines, classifyValue_encode, ih]

/-! ## The writer invariant (deferred first flush) -/

theorem hasAssistantEntry_append (es : List SessionEntry) (e : SessionEntry) :
    hasAssistantEntry (es ++ [e]) = (hasAssistantEntry es || e.isAssistantMessage) := by
  simp [hasAssistantEntry]

/-- Invariant of a persistence-enabled session under `append_*` calls: the
leaf id tracks the last entry, and the file exists — holding exactly the
header line followed by one line per entry — precisely once an assistant
message entry is present. -/
def SessionInv (h : SessionHeader) (s : SessionState) : Prop :=
  s.persist = true ∧ s.hasFile = true ∧ s.header = some h ∧
  s.leafId = (s.entries.getLast?).map SessionEntry.entryId ∧
  (if hasAssistantEntry s.entries then s.flushed = true ∧ s.disk = some (writeAllLines s)
   else s.flushed = false ∧ s.disk = none)

theorem writeAllLines_append (s : SessionState) (e : SessionEntry) :
    writeAllLines { s with entries := s.entries ++ [e], leafId := some e.entryId } =
      writeAllLines s ++ [Line.value e.encode] := by
  simp [writeAllLines]

theorem appendEntry_inv {h : SessionHeader} {s : SessionState} (inv : SessionInv h s)
    (e : SessionEntry) : SessionInv h (appendEntry s e) := by
  obtain ⟨hp, hf, hh, hl, hrest⟩ := inv
  by_cases hA : hasAssistantEntry s.entries
  · rw [if_pos hA] at hrest
    obtain ⟨hfl, hdisk⟩ := hrest
    refine ⟨?_, ?_, ?_, ?_, ?_⟩ <;>
      simp [appendEntry, persistEntry, hp, hf, hh, hA, hfl, hdisk,
        hasAssistantEntry_append, writeAllLines]
  · rw [if_neg hA] at hrest
    obtain ⟨hfl, hdisk⟩ := hrest
    by_cases hE : e.isAssistantMessage
    · refine ⟨?_, ?_, ?_, ?_, ?_⟩ <;>
        simp [appendEntry, persistEntry, hp, hf, hh, hA, hE, hfl, hdisk,
          hasAssistantEntry_append, writeAllLines]
    · refine ⟨?_, ?_, ?_, ?_, ?_⟩ <;>
        simp [appendEntry, persistEntry, hp, hf, hh, hA, hE, hfl, hdisk,
          hasAssistantEntry_append, writeAllLines]

theorem applyOp_inv {h : SessionHeader} {s : SessionState} (inv : SessionInv h s)
    (op : AppendOp) : SessionInv h (applyOp s op) := by
  cases op <;> exact appendEntry_inv inv _

theorem foldl_applyOp_inv {h : SessionHeader} {s : SessionState} (inv : SessionInv h s)
    (ops : List AppendOp) : SessionInv h (ops.foldl applyOp s) := by
  induction ops generalizing s with
  | nil => exact inv
  | cons op rest ih => exact ih (applyOp_inv inv op)

theorem runOps_inv (h : SessionHeader) (ops : List AppendOp) :
    SessionInv h (runOps h true ops) := by
  refine foldl_applyOp_inv ?_ ops
  refine ⟨rfl, rfl, rfl, rfl, ?_⟩
  simp [SessionState.create, hasAssistantEntry]

/-- Appending an entry to an already-flushed session only ever adds its own
encoded line to the file. -/
theorem appendEntry_one_line {h : SessionHeader} {s : SessionState} (inv : SessionInv h s)
    (hA : hasAssistantEntry s.entries = true) (e : SessionEntry) :
    (appendEntry s e).disk = some ((s.disk.getD []) ++ [Line.value e.encode]) := by
  obtain ⟨hp, hf, hh, hl, hrest⟩ := inv
  rw [if_pos hA] at hrest
  obtain ⟨hfl, hdisk⟩ := hrest
  simp [appendEntry, persistEntry, hp, hf, hA, hfl, hdisk, hasAssistantEntry_append]

/-- C2.  For a persistence-enabled session and any sequence of `append_*`
calls: the session file exists iff the entry list contains an assistant
message entry; when it exists it holds the header line followed by one
encoded line per entry (which is exactly what the first flush wrote); and
once flushed, any further append adds exactly one line to the file. -/
theorem c2_deferred_flush (h : SessionHeader) (ops : List AppendOp) :
    ((runOps h true ops).disk ≠ none ↔
      hasAssistantEntry (runOps h true ops).entries = true) ∧
    (hasAssistantEntry (runOps h true ops).entries = true →
      (runOps h true ops).disk = some (Line.value (encodeHeader h) ::
        (runOps h true ops).entries.map fun e => Line.value e.encode)) ∧
    (∀ op : AppendOp, hasAssistantEntry (runOps h true ops).entries = true →
      ∃ l, (applyOp (runOps h true ops) op).disk =
        some (((runOps h true ops).disk.getD []) ++ [l])) := by
  have inv := runOps_inv h ops
  obtain ⟨hp, hf, hh, hl, hrest⟩ := inv
  refine ⟨?_, ?_, ?_⟩
  · by_cases hA : hasAssistantEntry (runOps h true ops).entries
    · rw [if_pos hA] at hrest
      simp [hrest.2, hA]
    · rw [if_neg hA] at hrest
      simp [hrest.2, hA]
  · intro hA
    rw [if_pos hA] at hrest
    rw [hrest.2]
    simp [writeAllLines, hh]
  · intro op hA
    cases op <;>
      exact ⟨_, appendEntry_one_line ⟨hp, hf, hh, hl, hrest⟩ hA _⟩

/-- C2 witness: a concrete user-then-assistant session, where the file
exists, holds header plus two entry lines, and one further append adds one
line. -/
theorem c2_deferred_flush_witness :
    ((runOps ⟨1, "sid", "ts0", "/proj"⟩ true
        [.message "a1" "t1" (.user (.str "Hello")),
         .message "a2" "t2" (.assistant [.text ⟨"Hi"⟩] none (some .stop))]).disk ≠ none ↔
      hasAssistantEntry (runOps ⟨1, "sid", "ts0", "/proj"⟩ true
        [.message "a1" "t1" (.user (.str "Hello")),
         .message "a2" "t2" (.assistant [.text ⟨"Hi"⟩] none (some .stop))]).entries = true) ∧
    (hasAssistantEntry (runOps ⟨1, "sid", "ts0", "/proj"⟩ true
        [.message "a1" "t1" (.user (.str "Hello")),
         .message "a2" "t2" (.assistant [.text ⟨"Hi"⟩] none (some .stop))]).entries = true →
      (runOps ⟨1, "sid", "ts0", "/proj"⟩ true
        [.message "a1" "t1" (.user (.str "Hello")),
         .message "a2" "t2" (.assistant [.text ⟨"Hi"⟩] none (some .stop))]).disk =
        some (Line.value (encodeHeader ⟨1, "sid", "ts0", "/proj"⟩) ::
          (runOps ⟨1, "sid", "ts0", "/proj"⟩ true
            [.message "a1" "t1" (.user (.str "Hello")),
             .message "a2" "t2" (.assistant [.text ⟨"Hi"⟩] none
               (some .stop))]).entries.map fun e => Line.value e.encode)) ∧
    (∀ op : AppendOp, hasAssistantEntry (runOps ⟨1, "sid", "ts0", "/proj"⟩ true
        [.message "a1" "t1" (.user (.str "Hello")),
         .message "a2" "t2" (.assistant [.text ⟨"Hi"⟩] none (some .stop))]).entries = true →
      ∃ l, (applyOp (runOps ⟨1, "sid", "ts0", "/proj"⟩ true
        [.message "a1" "t1" (.user (.str "Hello")),
         .message "a2" "t2" (.assistant [.text ⟨"Hi"⟩] none (some .stop))]) op).disk =
        some (((runOps ⟨1, "sid", "ts0", "/proj"⟩ true
          [.message "a1" "t1" (.user (.str "Hello")),
           .message "a2" "t2" (.assistant [.text ⟨"Hi"⟩] none
             (some .stop))]).disk.getD []) ++ [l])) :=
  c2_deferred_flush ⟨1, "sid", "ts0", "/proj"⟩
    [.message "a1" "t1" (.user (.str "Hello")),
     .message "a2" "t2" (.assistant [.text ⟨"Hi"⟩] none (some .stop))]

/-- C1.  Round trip through the session file: once the session has been
flushed (it holds an assistant message entry and persistence is enabled),
loading the file it wrote yields the same entry list — whatever mix of
message, thinking-level-change, model-change, compaction, custom-message
and session-info appends produced it (their parent_ids chain by
construction) — and the same leaf id. -/
theorem c1_load_write_roundtrip (h : SessionHeader) (ops : List AppendOp)
    (hA : hasAssistantEntry (runOps h true ops).entries = true) :
    ∃ lines, (runOps h true ops).disk = some lines ∧
      load lines = .ok ⟨h, (runOps h true ops).entries, (runOps h true ops).leafId⟩ := by
  have inv := runOps_inv h ops
  obtain ⟨hp, hf, hh, hl, hrest⟩ := inv
  rw [if_pos hA] at hrest
  refine ⟨writeAllLines (runOps h true ops), hrest.2, ?_⟩
  have hw : writeAllLines (runOps h true ops) = Line.value (encodeHeader h) ::
      (runOps h true ops).entries.map fun e => Line.value e.encode := by
    simp [writeAllLines, hh]
  rw [hw]
  simp [load, loadLines, classifyValue_encodeHeader, loadLines_encoded, hl]

/-- C1 witness: a concrete session containing all six entry kinds. -/
theorem c1_load_write_roundtrip_witness :
    ∃ lines, (runOps ⟨1, "sid", "ts0", "/proj"⟩ true
      [.message "a1" "t1" (.user (.str "hi")),
       .thinkingLevelChange "a2" "t2" "high",
       .modelChange "a3" "t3" "openai" "gpt-4" none,
       .compaction "a4" "t4" "Compacted session" "a1" 1000 none,
       .customMessage "a5" "t5" "error" "Something went wrong" true none,
       .sessionInfo "a6" "t6" "My Test Session",
       .message "a7" "t7" (.assistant [.text ⟨"Response"⟩] none (some .stop))]).disk =
        some lines ∧
      load lines = .ok ⟨⟨1, "sid", "ts0", "/proj"⟩,
        (runOps ⟨1, "sid", "ts0", "/proj"⟩ true
          [.message "a1" "t1" (.user (.str "hi")),
           .thinkingLevelChange "a2" "t2" "high",
           .modelChange "a3" "t3" "openai" "gpt-4" none,
           .compaction "a4" "t4" "Compacted session" "a1" 1000 none,
           .customMessage "a5" "t5" "error" "Something went wrong" true none,
           .sessionInfo "a6" "t6" "My Test Session",
           .message "a7" "t7" (.assistant [.text ⟨"Response"⟩] none (some .stop))]).entries,
        (runOps ⟨1, "sid", "ts0", "/proj"⟩ true
          [.message "a1" "t1" (.user (.str "hi")),
           .thinkingLevelChange "a2" "t2" "high",
           .modelChange "a3" "t3" "openai" "gpt-4" none,
           .compaction "a4" "t4" "Compacted session" "a1" 1000 none,
           .customMessage "a5" "t5" "error" "Something went wrong" true none,
           .sessionInfo "a6" "t6" "My Test Session",
           .message "a7" "t7" (.assistant [.text ⟨"Response"⟩] none
             (some .stop))]).leafId⟩ :=
  c1_load_write_roundtrip ⟨1, "sid", "ts0", "/proj"⟩
    [.message "a1" "t1" (.user (.str "hi")),
     .thinkingLevelChange "a2" "t2" "high",
     .modelChange "a3" "t3" "openai" "gpt-4" none,
     .compaction "a4" "t4" "Compacted session" "a1" 1000 none,
     .customMessage "a5" "t5" "error" "Something went wrong" true none,
     .sessionInfo "a6" "t6" "My Test Session",
     .message "a7" "t7" (.assistant [.text ⟨"Response"⟩] none (some .stop))]
    (by rfl)

/-! ## The compacted view (`Session.messages`, `session.py:311-343`) -/

def SessionEntry.compactionSummary : SessionEntry → String
  | .compaction _ summary _ _ _ => summary
  | _ => ""

/-- The reversed scan with break of `session.py:314-318`: the most recent
compaction entry, if any. -/
def lastCompactionEntry (entries : List SessionEntry) : Option SessionEntry :=
  entries.reverse.find? SessionEntry.isCompaction

/-- `[e.message for e in self._entries if isinstance(e, MessageEntry)]`
(`session.py:321`, also `Session.all_messages`, `session.py:345-348`). -/
def entryMessages (entries : List SessionEntry) : List Message :=
  entries.filterMap fun e =>
    match e with
    | .message _ m => some m
    | _ => none

/-- The `past_compaction` walk of `session.py:335-341`: flip the flag at
the compaction entry carrying the given id, collect the messages of every
message entry seen while the flag is up. -/
def collectAfterCompaction (cid : String) : List SessionEntry → Bool → List Message
  | [], _ => []
  | e :: rest, past =>
    if e.isCompaction && e.entryId == cid then collectAfterCompaction cid rest true
    else
      match e, past with
      | .message _ m, true => m :: collectAfterCompaction cid rest true
      | _, _ => collectAfterCompaction cid rest past

/-- `Session.messages` (`session.py:311-343`): the compacted view sent to
the provider. -/
def messagesView (entries : List SessionEntry) : List Message :=
  match lastCompactionEntry entries with
  | none => entryMessages entries
  | some c =>
    Message.user (.str "What did we do so far?") ::
      Message.assistant [.text ⟨c.compactionSummary⟩] none (some .stop) ::
        collectAfterCompaction c.entryId entries false

/-- The claim's wording of the compacted view: the synthetic Q/A pair
followed by the messages of every message entry positioned after the most
recent compaction entry; without a compaction, all message entries in
order. -/
def messagesViewSpec (entries : List SessionEntry) : List Message :=
  match lastCompactionEntry entries with
  | none => entryMessages entries
  | some c =>
    Message.user (.str "What did we do so far?") ::
      Message.assistant [.text ⟨c.compactionSummary⟩] none (some .stop) ::
        entryMessages ((entries.reverse.takeWhile fun e => !e.isCompaction).reverse)

theorem takeWhile_append_of_pos {p : α → Bool} :
    ∀ (l1 : List α) (x : α) (l2 : List α), (∀ a ∈ l1, p a = true) → p x = false →
      (l1 ++ x :: l2).takeWhile p = l1
  | [], x, l2, _, hx => by simp [List.takeWhile, hx]
  | a :: l1, x, l2, h1, hx => by
    have ha := h1 a (by simp)
    simp only [List.cons_append, List.takeWhile_cons, ha, if_true]
    rw [takeWhile_append_of_pos l1 x l2 (fun b hb => h1 b (by simp [hb])) hx]

theorem collectAfterCompaction_skip (cid : String) :
    ∀ (pre rest : List SessionEntry),
      (∀ e ∈ pre, ¬(e.isCompaction = true ∧ e.entryId = cid)) →
      collectAfterCompaction cid (pre ++ rest) false = collectAfterCompaction cid rest false
  | [], rest, _ => rfl
  | e :: pre, rest, h => by
    have he := h e (by simp)
    have hcond : (e.isCompaction && e.entryId == cid) = false := by
      cases hc : e.isCompaction with
      | false => simp
      | true =>
        simp only [Bool.true_and]
        apply beq_eq_false_iff_ne.2
        intro hEq
        exact he ⟨hc, hEq⟩
    cases e with
    | message b m =>
      simp only [List.cons_append, collectAfterCompaction, hcond, Bool.false_eq_true, if_false]
      exact collectAfterCompaction_skip cid pre rest fun x hx => h x (by simp [hx])
    | thinkingLevelChange b lvl =>
      simp only [List.cons_append, collectAfterCompaction, hcond, Bool.false_eq_true, if_false]
      exact collectAfterCompaction_skip cid pre rest fun x hx => h x (by simp [hx])
    | modelChange b p mid u =>
      simp only [List.cons_append, collectAfterCompaction, hcond, Bool.false_eq_true, if_false]
      exact collectAfterCompaction_skip cid pre rest fun x hx => h x (by simp [hx])
    | compaction b s f t d =>
      simp only [List.cons_append, collectAfterCompaction, hcond, Bool.false_eq_true, if_false]
      exact collectAfterCompaction_skip cid pre rest fun x hx => h x (by simp [hx])
    | customMessage b c con d dd =>
      simp only [List.cons_append, collectAfterCompaction, hcond, Bool.false_eq_true, if_false]
      exact collectAfterCompaction_skip cid pre rest fun x hx => h x (by simp [hx])
    | sessionInfo b n =>
      simp only [List.cons_append, collectAfterCompaction, hcond, Bool.false_eq_true, if_false]
      exact collectAfterCompaction_skip cid pre rest fun x hx => h x (by simp [hx])

theorem collectAfterCompaction_collect (cid : String) :
    ∀ (post : List SessionEntry), (∀ e ∈ post, e.isCompaction = false) →
      collectAfterCompaction cid post true = entryMessages post
  | [], _ => rfl
  | e :: post, h => by
    have he := h e (by simp)
    have hcond : (e.isCompaction && e.entryId == cid) = false := by simp [he]
    have ih := collectAfterCompaction_collect cid post fun x hx => h x (by simp [hx])
    cases e <;>
      simp_all [collectAfterCompaction, entryMessages]

/-- C3.  The compacted view equals its specification: with at least one
compaction entry it is the synthetic "What did we do so far?" user
message, a synthetic assistant message holding the latest compaction's
summary, then the messages of the message entries after that compaction;
otherwise the messages of all message entries in order.  (Entry ids are
unique within a session — spec §3 invariant; the hypothesis rules out a
stray duplicate of the last compaction's id.) -/
theorem c3_messages_view (entries : List SessionEntry)
    (hnd : (entries.map SessionEntry.entryId).Nodup) :
    messagesView entries = messagesViewSpec entries := by
  cases hfind : lastCompactionEntry entries with
  | none => simp [messagesView, messagesViewSpec, hfind]
  | some c =>
    have hfind' := hfind
    unfold lastCompactionEntry at hfind'
    rw [List.find?_eq_some] at hfind'
    obtain ⟨hpc, as, bs, hsplit, has⟩ := hfind'
    have hentries : entries = bs.reverse ++ c :: as.reverse := by
      have := congrArg List.reverse hsplit
      simpa using this
    have hpost : ∀ e ∈ as.reverse, e.isCompaction = false := by
      intro e he
      simpa using has e (by simpa using he)
    have hpre : ∀ e ∈ bs.reverse, ¬(e.isCompaction = true ∧ e.entryId = c.entryId) := by
      intro e he hcontra
      have hnd' := hnd
      rw [hentries, List.map_append, List.map_cons, List.nodup_append] at hnd'
      have hmem : c.entryId ∈ List.map SessionEntry.entryId bs.reverse := by
        rw [← hcontra.2]
        exact List.mem_map_of_mem _ he
      obtain ⟨-, -, hdisj⟩ := hnd'
      exact hdisj hmem (by simp)
    simp only [messagesView, messagesViewSpec, hfind]
    congr 1
    congr 1
    rw [hentries]
    rw [collectAfterCompaction_skip c.entryId bs.reverse (c :: as.reverse) hpre]
    have hstep : collectAfterCompaction c.entryId (c :: as.reverse) false =
        collectAfterCompaction c.entryId as.reverse true := by
      simp [collectAfterCompaction, hpc]
    rw [hstep, collectAfterCompaction_collect c.entryId as.reverse hpost]
    have hrev : (bs.reverse ++ c :: as.reverse).reverse = as ++ c :: bs := by simp
    rw [hrev, takeWhile_append_of_pos as c bs (fun a ha => by simpa using has a ha)
      (by simp [hpc])]

/-- C3 witness: a session with a compaction followed by further entries. -/
theorem c3_messages_view_witness :
    messagesView
      [.message ⟨"m1", none, "t1"⟩ (.user (.str "Q1")),
       .compaction ⟨"c1", some "m1", "t2"⟩ "Summary so far" "m1" 100 none,
       .message ⟨"m2", some "c1", "t3"⟩ (.user (.str "Q2")),
       .sessionInfo ⟨"s1", some "m2", "t4"⟩ (some "name"),
       .message ⟨"m3", some "s1", "t5"⟩ (.assistant [.text ⟨"A2"⟩] none (some .stop))] =
    messagesViewSpec
      [.message ⟨"m1", none, "t1"⟩ (.user (.str "Q1")),
       .compaction ⟨"c1", some "m1", "t2"⟩ "Summary so far" "m1" 100 none,
       .message ⟨"m2", some "c1", "t3"⟩ (.user (.str "Q2")),
       .sessionInfo ⟨"s1", some "m2", "t4"⟩ (some "name"),
       .message ⟨"m3", some "s1", "t5"⟩ (.assistant [.text ⟨"A2"⟩] none (some .stop))] :=
  c3_messages_view
    [.message ⟨"m1", none, "t1"⟩ (.user (.str "Q1")),
     .compaction ⟨"c1", some "m1", "t2"⟩ "Summary so far" "m1" 100 none,
     .message ⟨"m2", some "c1", "t3"⟩ (.user (.str "Q2")),
     .sessionInfo ⟨"s1", some "m2", "t4"⟩ (some "name"),
     .message ⟨"m3", some "s1", "t5"⟩ (.assistant [.text ⟨"A2"⟩] none (some .stop))]
    (by decide)

/-! ## The header requirement of `Session.load` (claim C5) -/

/-- Does this line parse as a JSON value that the load dispatch treats as
a header? -/
def lineClassifiesHeader : Line → Bool
  | .value v =>
    match classifyValue v with
    | .header _ => true
    | _ => false
  | _ => false

/-- Does this line make the load loop raise (validation failure or
non-object JSON)? -/
def lineClassifiesFail : Line → Bool
  | .value v =>
    match classifyValue v with
    | .fail _ => true
    | _ => false
  | _ => false

/-- The load dispatch never raises the no-header error itself; that error
only arises from the final check. -/
theorem classifyValue_fail_ne_noHeader (v : Jv) : classifyValue v ≠ .fail .noHeader := by
  unfold classifyValue
  split
  · split <;> (try split) <;> simp
  · simp

theorem loadLines_some_ne_noHeader (h : SessionHeader) :
    ∀ (lines : List Line) (acc : List SessionEntry),
      loadLines lines (some h) acc ≠ .error .noHeader
  | [], _ => by simp [loadLines]
  | line :: rest, acc => by
    cases line with
    | blank => exact loadLines_some_ne_noHeader h rest acc
    | malformed => exact loadLines_some_ne_noHeader h rest acc
    | value v =>
      show (match classifyValue v with
        | .skip => loadLines rest (some h) acc
        | .header h' => loadLines rest (some h') acc
        | .entry e => loadLines rest (some h) (acc ++ [e])
        | .fail err => .error err) ≠ .error .noHeader
      cases hcv : classifyValue v with
      | skip => exact loadLines_some_ne_noHeader h rest acc
      | header h' => exact loadLines_some_ne_noHeader h' rest acc
      | entry e => exact loadLines_some_ne_noHeader h rest (acc ++ [e])
      | fail err =>
        cases err with
        | noHeader => exact absurd hcv (classifyValue_fail_ne_noHeader v)
        | badEntry => simp
        | badLine => simp

theorem loadLines_noHeader_iff :
    ∀ (lines : List Line) (acc : List SessionEntry),
      (loadLines lines none acc = .error .noHeader ↔
        ∀ l ∈ lines, lineClassifiesHeader l = false ∧ lineClassifiesFail l = false)
  | [], acc => by simp [loadLines]
  | line :: rest, acc => by
    cases line with
    | blank =>
      simp only [List.mem_cons, forall_eq_or_imp]
      rw [show loadLines (Line.blank :: rest) none acc = loadLines rest none acc from rfl]
      rw [loadLines_noHeader_iff rest acc]
      simp [lineClassifiesHeader, lineClassifiesFail]
    | malformed =>
      simp only [List.mem_cons, forall_eq_or_imp]
      rw [show loadLines (Line.malformed :: rest) none acc = loadLines rest none acc from rfl]
      rw [loadLines_noHeader_iff rest acc]
      simp [lineClassifiesHeader, lineClassifiesFail]
    | value v =>
      simp only [List.mem_cons, forall_eq_or_imp]
      rw [show loadLines (Line.value v :: rest) none acc =
        (match classifyValue v with
          | .skip => loadLines rest none acc
          | .header h' => loadLines rest (some h') acc
          | .entry e => loadLines rest none (acc ++ [e])
          | .fail err => .error err) from rfl]
      cases hcv : classifyValue v with
      | skip =>
        rw [loadLines_noHeader_iff rest acc]
        simp [lineClassifiesHeader, lineClassifiesFail, hcv]
      | header h' =>
        simp only [lineClassifiesHeader, lineClassifiesFail, hcv]
        constructor
        · intro hcontra
          exact absurd hcontra (loadLines_some_ne_noHeader h' rest acc)
        · intro hcontra
          exact absurd hcontra.1.1 (by simp)
      | entry e =>
        rw [loadLines_noHeader_iff rest (acc ++ [e])]
        simp [lineClassifiesHeader, lineClassifiesFail, hcv]
      | fail err =>
        simp only [lineClassifiesHeader, lineClassifiesFail, hcv]
        constructor
        · intro hcontra
          have herr : err = LoadErr.noHeader := by
            simpa using hcontra
          rw [herr] at hcv
          exact absurd hcv (classifyValue_fail_ne_noHeader v)
        · intro hcontra
          exact absurd hcontra.1.2 (by simp)

/-- C5 counterexample: a file whose first valid entry is a session-info
entry and whose header line only appears second is accepted by `load`
(the entry is even kept), refuting "rejected even if a header line
appears later". -/
theorem c5_counterexample :
    load [Line.value (SessionEntry.sessionInfo ⟨"e0", none, "t0"⟩ (some "Name")).encode,
        Line.value (encodeHeader ⟨1, "sid", "ts", "/proj"⟩)] =
      .ok ⟨⟨1, "sid", "ts", "/proj"⟩,
        [SessionEntry.sessionInfo ⟨"e0", none, "t0"⟩ (some "Name")], some "e0"⟩ := by
  rfl

/-- C5 (amended).  `load` skips blank lines and lines that fail JSON
parsing, reconstructs entries by dispatching on the `type` field, and
fails with the "no header" error exactly when no line of the file is
classified as a header (and none makes the loop raise) — wherever in the
file a header line appears, it is accepted. -/
theorem c5_load_header_requirement (lines : List Line) :
    load (Line.blank :: lines) = load lines ∧
    load (Line.malformed :: lines) = load lines ∧
    (∀ e : SessionEntry, classifyValue e.encode = .entry e) ∧
    (load lines = .error .noHeader ↔
      ∀ l ∈ lines, lineClassifiesHeader l = false ∧ lineClassifiesFail l = false) := by
  refine ⟨rfl, rfl, classifyValue_encode, ?_⟩
  have hload : load lines = .error .noHeader ↔
      loadLines lines none [] = .error .noHeader := by
    unfold load
    cases hll : loadLines lines none [] with
    | error e => simp [hll, Except.bind]
    | ok p => simp [hll, Except.bind]
  rw [hload, loadLines_noHeader_iff]

/-- C5 witness: the amended statement at a one-line file holding just a
header. -/
theorem c5_load_header_requirement_witness :
    load (Line.blank :: [Line.value (encodeHeader ⟨1, "sid", "ts", "/proj"⟩)]) =
      load [Line.value (encodeHeader ⟨1, "sid", "ts", "/proj"⟩)] ∧
    load (Line.malformed :: [Line.value (encodeHeader ⟨1, "sid", "ts", "/proj"⟩)]) =
      load [Line.value (encodeHeader ⟨1, "sid", "ts", "/proj"⟩)] ∧
    (∀ e : SessionEntry, classifyValue e.encode = .entry e) ∧
    (load [Line.value (encodeHeader ⟨1, "sid", "ts", "/proj"⟩)] = .error .noHeader ↔
      ∀ l ∈ [Line.value (encodeHeader ⟨1, "sid", "ts", "/proj"⟩)],
        lineClassifiesHeader l = false ∧ lineClassifiesFail l = false) :=
  c5_load_header_requirement [Line.value (encodeHeader ⟨1, "sid", "ts", "/proj"⟩)]

/-! ## Turn executor (`turn.py:187-489`)

The provider stream, the cancellation race and the idle timeout are
asynchronous; we model one iteration of the chunk loop as a `LoopInput`:
either the cancellation signal wins the race (at the top-of-loop check or
mid-wait — both have the same effect), the idle timeout fires, the next
chunk arrives, or the stream is exhausted.  Opening the stream and
executing tools are I/O, modelled by outcome functions. -/

/-- Modelled from the spec: the stream-part vocabulary (§4.1; constructor
shapes from `turn.py`'s match and the mock provider). -/
inductive StreamPart where
  | think (delta : String) (signature : Option String)
  | text (delta : String)
  | toolCallStart (id name : String) (index : Nat)
  | toolCallDelta (index : Nat) (arguments_delta : String)
  | streamDone (stop_reason : StopReason)
  | streamError (error : String)

/-- What one iteration of the chunk loop observes. -/
inductive LoopInput where
  | chunk (p : StreamPart)
  | cancel
  | timeout
  | exhausted

/-- The in-progress tool-call dict (`turn.py:401`). -/
structure ToolCallData where
  id : String
  name : String
  arguments : String

/-- The events `run_single_turn` yields (`events.py`), restricted to the
fields the claims speak about; `stallWarning` carries the timeout whose
formatted text the real `WarningEvent` holds. -/
inductive TurnEvent where
  | thinkingStart
  | thinkingDelta (delta : String)
  | thinkingEnd (thinking : String) (signature : Option String)
  | textStart
  | textDelta (delta : String)
  | textEnd (text : String)
  | toolStart (tool_call_id tool_name : String)
  | toolArgsDelta (tool_call_id delta : String)
  | toolArgsTokenUpdate (tool_call_id tool_name : String) (token_count : Nat)
  | toolEnd (tool_call_id tool_name : String) (arguments : List (String × Jv))
      (display : String)
  | toolResult (tool_call_id tool_name : String) (result : ToolResultMessage)
  | retry (attempt total_attempts : Nat) (delay : Nat) (error : String)
  | error (error : String)
  | stallWarning (timeout_secs : Nat)
  | interrupted (message : String)
  | turnEnd (turn : Nat) (assistant_message : Option Message)
      (tool_results : List ToolResultMessage) (stop_reason : StopReason)

/-- `_count_tokens` (`turn.py:79-81`): `len(text) // 4`. -/
def countTokens (text : String) : Nat := text.length / 4

/-- `_TOOL_ARGS_TOKEN_DISPLAY_THRESHOLD` (`turn.py:75`). -/
def toolArgsTokenDisplayThreshold : Nat := 20

/-- `_TOOL_ARGS_TOKEN_CHUNK_UPDATE_INTERVAL` (`turn.py:76`). -/
def toolArgsTokenChunkUpdateInterval : Nat := 4

/-- `StreamState` (`turn.py:84-87`). -/
inductive StreamState where
  | think
  | text
  | toolCall
deriving DecidableEq

/-- The mutable locals of the chunk loop (`turn.py:228-245`). -/
structure TurnState where
  content : List AssistantContent
  thinkBuffer : List String
  thinkSignature : Option String
  textBuffer : List String
  pendingToolCalls : List ToolCallData
  currentToolCall : Option ToolCallData
  argChunkCounter : Nat
  argTokenCount : Nat
  currentState : Option StreamState
  stopReason : StopReason
  interrupted : Bool

def TurnState.init : TurnState :=
  { content := [], thinkBuffer := [], thinkSignature := none, textBuffer := [],
    pendingToolCalls := [], currentToolCall := none, argChunkCounter := 0,
    argTokenCount := 0, currentState := none, stopReason := .stop, interrupted := false }

/-- `_finalize_current_state` (`turn.py:247-270`): close the current
block.  Thinking/text blocks produce a content part and an end event —
dropped when empty unless `includeEmpty`; an in-progress tool call always
moves to the pending queue. -/
def finalizeCurrentState (st : TurnState) (includeEmpty : Bool) :
    TurnState × List TurnEvent :=
  match st.currentState with
  | some .think =>
    let full := String.join st.thinkBuffer
    if includeEmpty || full != "" then
      ({ st with
          content := st.content ++ [.thinking ⟨full, st.thinkSignature⟩],
          thinkBuffer := [], thinkSignature := none, currentState := none },
        [.thinkingEnd full st.thinkSignature])
    else
      ({ st with thinkBuffer := [], thinkSignature := none, currentState := none }, [])
  | some .text =>
    let full := String.join st.textBuffer
    if includeEmpty || full != "" then
      ({ st with
          content := st.content ++ [.text ⟨full⟩],
          textBuffer := [], currentState := none }, [.textEnd full])
    else
      ({ st with textBuffer := [], currentState := none }, [])
  | some .toolCall =>
    match st.currentToolCall with
    | some tc =>
      ({ st with
          pendingToolCalls := st.pendingToolCalls ++ [tc],
          currentToolCall := none, currentState := none }, [])
    | none => ({ st with currentState := none }, [])
  | none => (st, [])

/-- The `match chunk` body of the chunk loop (`turn.py:359-432`).  Note
that neither `StreamDone` nor `StreamError` breaks the loop. -/
def processChunk (st : TurnState) : StreamPart → TurnState × List TurnEvent
  | .think t sig =>
    let (st1, finEvs) :=
      if st.currentState.isSome && st.currentState != some .think then
        finalizeCurrentState st true
      else (st, [])
    let startEvs : List TurnEvent :=
      if st1.currentState != some .think then [.thinkingStart] else []
    let newSig :=
      match sig with
      | some s => if s != "" then some s else st1.thinkSignature
      | none => st1.thinkSignature
    ({ st1 with
        currentState := some .think,
        thinkBuffer := st1.thinkBuffer ++ [t],
        thinkSignature := newSig },
      finEvs ++ startEvs ++ [.thinkingDelta t])
  | .text t =>
    let (st1, finEvs) :=
      if st.currentState.isSome && st.currentState != some .text then
        finalizeCurrentState st true
      else (st, [])
    let startEvs : List TurnEvent :=
      if st1.currentState != some .text then [.textStart] else []
    ({ st1 with
        currentState := some .text,
        textBuffer := st1.textBuffer ++ [t] },
      finEvs ++ startEvs ++ [.textDelta t])
  | .toolCallStart id name _index =>
    let (st1, finEvs) :=
      if st.currentState.isSome && st.currentState != some .toolCall then
        finalizeCurrentState st true
      else if st.currentState == some .toolCall && st.currentToolCall.isSome then
        ({ st with
            pendingToolCalls := st.pendingToolCalls ++ st.currentToolCall.toList,
            currentToolCall := none }, [])
      else (st, [])
    ({ st1 with
        argChunkCounter := 0, argTokenCount := 0,
        currentState := some .toolCall,
        currentToolCall := some ⟨id, name, ""⟩ },
      finEvs ++ [.toolStart id name])
  | .toolCallDelta _index delta =>
    match st.currentToolCall with
    | none => (st, [])
    | some tc =>
      let tc' : ToolCallData := { tc with arguments := tc.arguments ++ delta }
      let counter := st.argChunkCounter + 1
      let tokens := st.argTokenCount + countTokens delta
      let updateEvs : List TurnEvent :=
        if tokens > toolArgsTokenDisplayThreshold &&
            counter % toolArgsTokenChunkUpdateInterval == 0 then
          [.toolArgsTokenUpdate tc'.id tc'.name tokens]
        else []
      ({ st with
          currentToolCall := some tc',
          argChunkCounter := counter, argTokenCount := tokens },
        .toolArgsDelta tc.id delta :: updateEvs)
  | .streamDone reason =>
    let st1 := { st with stopReason := reason }
    finalizeCurrentState st1 true
  | .streamError err =>
    ({ st with stopReason := .error }, [.error err])

/-- `chunk_timeout` is armed only when a timeout is configured and the
executor is inside a tool call or has pending tool calls
(`turn.py:285-292`). -/
def chunkTimeoutActive (idleTimeout : Option Nat) (st : TurnState) : Bool :=
  idleTimeout.isSome &&
    (st.currentState == some .toolCall || !st.pendingToolCalls.isEmpty)

/-- Result of the chunk loop; `finished = false` means the modelled inputs
ran out while the real loop would still be awaiting its next chunk. -/
structure ChunkLoopResult where
  state : TurnState
  events : List TurnEvent
  finished : Bool

/-- The chunk loop of `run_single_turn` (`turn.py:278-432`): cancellation
breaks with the interrupted flag; an (armed) idle timeout emits the stall
warning, finalizes dropping empty blocks, promotes the stop reason and
breaks; stream exhaustion finalizes keeping empty blocks, promotes and
breaks; chunks are processed in order — only these four exits leave the
loop. -/
def runChunkLoop (idleTimeout : Option Nat) : List LoopInput → TurnState → ChunkLoopResult
  | [], st => ⟨st, [], false⟩
  | input :: rest, st =>
    match input with
    | .cancel =>
      ⟨{ st with interrupted := true, stopReason := .interrupted }, [], true⟩
    | .timeout =>
      if chunkTimeoutActive idleTimeout st then
        let (st1, evs) := finalizeCurrentState st false
        let st2 :=
          if !st1.pendingToolCalls.isEmpty && st1.stopReason == .stop then
            { st1 with stopReason := .tool_use }
          else st1
        ⟨st2, .stallWarning (idleTimeout.getD 0) :: evs, true⟩
      else
        runChunkLoop idleTimeout rest st
    | .exhausted =>
      let (st1, evs) := finalizeCurrentState st true
      let st2 :=
        if !st1.pendingToolCalls.isEmpty && st1.stopReason == .stop then
          { st1 with stopReason := .tool_use }
        else st1
      ⟨st2, evs, true⟩
    | .chunk p =>
      let (st1, evs) := processChunk st p
      let r := runChunkLoop idleTimeout rest st1
      ⟨r.state, evs ++ r.events, r.finished⟩

/-- `retry_delays if retry_delays is not None else [2, 4, 8]`
(`turn.py:205`). -/
def resolveRetryDelays (retryDelays : Option (List Nat)) : List Nat :=
  retryDelays.getD [2, 4, 8]

/-- The retry loop of `run_single_turn` (`turn.py:208-223`), iterating
over `enumerate([*delays, None])`.  `openOutcome i = none` means the
`provider.stream` call of attempt `i` succeeds; `some (err, retryable)`
means it raises `err`, classified by `should_retry_for_error`.  Returns
the emitted events, `some err` when the turn ends in failure, and the
number of provider calls made. -/
def retryLoop (openOutcome : Nat → Option (String × Bool)) (total : Nat) :
    Nat → List (Option Nat) → List TurnEvent × Option String × Nat
  | attemptNum, [] => ([], some "stream is None", attemptNum)
  | attemptNum, delay :: rest =>
    match openOutcome attemptNum with
    | none => ([], none, 1)
    | some (err, retryable) =>
      if retryable && delay.isSome then
        let (evs, failure, calls) := retryLoop openOutcome total (attemptNum + 1) rest
        (.retry (attemptNum + 1) total (delay.getD 0) err :: evs, failure, calls + 1)
      else ([], some err, 1)

/-- `_create_skipped_tool_result` (`turn.py:117-125`). -/
def createSkippedToolResult (tc : ToolCall) : ToolResultMessage :=
  { tool_call_id := tc.id, tool_name := tc.name,
    content := [.text ⟨"Interrupted by user"⟩], display := none, is_error := true }

/-- The external collaborators of the turn executor: JSON parsing of the
accumulated argument string (`json.loads`, `none` = `JSONDecodeError`),
the tool registry (`get_tool(name) is not None`), and the display
formatting (`tool.params` + `tool.format_call` with exceptions already
swallowed to `""`). -/
structure TurnConfig where
  idleTimeout : Option Nat
  parseArgs : String → Option (List (String × Jv))
  hasTool : String → Bool
  toolDisplay : String → List (String × Jv) → String

/-- What one `await tool.execute(...)` produces, as reflected in the
tool-result message `_execute_tool` builds: content parts, display and
error flag (`tool_call_id`/`tool_name` always come from the call). -/
structure ExecOut where
  content : List UserPart
  display : Option String
  is_error : Bool

/-- The first pass over pending tool calls (`turn.py:448-459`): parse the
raw arguments (empty on failure), build the `ToolCall` content part,
compute the display string, and yield one `tool-end` event each. -/
def toolEndPhase (cfg : TurnConfig) :
    List ToolCallData → TurnState → TurnState × List TurnEvent × List ToolCall
  | [], st => (st, [], [])
  | tc :: rest, st =>
    let args := (cfg.parseArgs tc.arguments).getD []
    let call : ToolCall := ⟨tc.id, tc.name, args⟩
    let display := if cfg.hasTool tc.name then cfg.toolDisplay tc.name args else ""
    let st1 := { st with content := st.content ++ [.toolCall call] }
    let (stf, evs, calls) := toolEndPhase cfg rest st1
    (stf, .toolEnd tc.id tc.name args display :: evs, call :: calls)

/-- The execution pass (`turn.py:461-475`): run the tools in order; when
the cancellation signal is set before a call, substitute the
"Interrupted by user" placeholder result. -/
def execPhase (cancelAtExec : Nat → Bool) (execOutcome : Nat → ExecOut) :
    Nat → List ToolCall → List ToolResultMessage × List TurnEvent
  | _, [] => ([], [])
  | i, tc :: rest =>
    let result : ToolResultMessage :=
      if cancelAtExec i then createSkippedToolResult tc
      else
        let out := execOutcome i
        { tool_call_id := tc.id, tool_name := tc.name, content := out.content,
          display := out.display, is_error := out.is_error }
    let (results, evs) := execPhase cancelAtExec execOutcome (i + 1) rest
    (result :: results, .toolResult tc.id tc.name result :: evs)

/-- The inputs of one `run_single_turn` call: the turn number, the state
of the cancellation signal at entry, the retry schedule, the outcome of
each `provider.stream` attempt, the chunk-loop schedule, the stream's
final usage, the cancellation state before each tool execution and each
tool's result. -/
structure TurnInputs where
  turn : Nat
  preCancelled : Bool
  retryDelays : Option (List Nat)
  openOutcome : Nat → Option (String × Bool)
  loopInputs : List LoopInput
  streamUsage : Option Usage
  cancelAtExec : Nat → Bool
  execOutcome : Nat → ExecOut

/-- What a full `run_single_turn` run produces: its event sequence, how
many times it called `provider.stream`, and whether the chunk loop exited
through one of its breaks. -/
structure TurnOutput where
  events : List TurnEvent
  providerCalls : Nat
  loopFinished : Bool

/-- `run_single_turn` (`turn.py:187-489`): pre-cancel shortcut, retry
loop, chunk loop, interrupt cleanup, tool-end pass, execution pass, final
interrupted event and terminal turn-end. -/
def runSingleTurn (cfg : TurnConfig) (inp : TurnInputs) : TurnOutput :=
  if inp.preCancelled then
    { events := [.interrupted "Interrupted by user",
        .turnEnd inp.turn none [] .interrupted],
      providerCalls := 0, loopFinished := true }
  else
    let delays := resolveRetryDelays inp.retryDelays
    let (retryEvs, failure, calls) :=
      retryLoop inp.openOutcome delays.length 0 (delays.map some ++ [none])
    match failure with
    | some err =>
      { events := retryEvs ++ [.error err, .turnEnd inp.turn none [] .error],
        providerCalls := calls, loopFinished := true }
    | none =>
      let r := runChunkLoop cfg.idleTimeout inp.loopInputs TurnState.init
      let (st1, intEvs) :=
        if r.state.interrupted then finalizeCurrentState r.state false else (r.state, [])
      let (st2, endEvs, finalized) := toolEndPhase cfg st1.pendingToolCalls st1
      let (results, resEvs) := execPhase inp.cancelAtExec inp.execOutcome 0 finalized
      let interruptedEvs : List TurnEvent :=
        if st2.interrupted then [.interrupted "Interrupted by user"] else []
      let assistant : Message := .assistant st2.content inp.streamUsage (some st2.stopReason)
      { events := retryEvs ++ r.events ++ intEvs ++ endEvs ++ resEvs ++ interruptedEvs ++
          [.turnEnd inp.turn (some assistant) results st2.stopReason],
        providerCalls := calls, loopFinished := r.finished }

/-- C7.  When the cancellation signal is already set at entry,
`run_single_turn` emits exactly the interrupted event followed by a
turn-end with stop reason INTERRUPTED, a null assistant message and an
empty tool-result list — and never calls the provider. -/
theorem c7_precancel_shortcut (cfg : TurnConfig) (inp : TurnInputs)
    (h : inp.preCancelled = true) :
    runSingleTurn cfg inp =
      { events := [.interrupted "Interrupted by user",
          .turnEnd inp.turn none [] .interrupted],
        providerCalls := 0, loopFinished := true } := by
  simp [runSingleTurn, h]

/-- C7 witness: a concrete pre-cancelled invocation. -/
theorem c7_precancel_shortcut_witness :
    runSingleTurn ⟨some 60, fun _ => none, fun _ => false, fun _ _ => ""⟩
      ⟨1, true, none, fun _ => none, [], none, fun _ => false, fun _ => ⟨[], none, false⟩⟩ =
      { events := [.interrupted "Interrupted by user", .turnEnd 1 none [] .interrupted],
        providerCalls := 0, loopFinished := true } :=
  c7_precancel_shortcut ⟨some 60, fun _ => none, fun _ => false, fun _ _ => ""⟩
    ⟨1, true, none, fun _ => none, [], none, fun _ => false, fun _ => ⟨[], none, false⟩⟩ rfl

/-- C4 counterexample: after a `stream_error` part the chunk loop does
not break — a later `text` part is still processed (text-start and
text-delta events appear after the error event, and the finalized text
even lands in the assistant message). -/
theorem c4_counterexample :
    (runSingleTurn ⟨some 60, fun _ => none, fun _ => false, fun _ _ => ""⟩
      ⟨1, false, some [], fun _ => none,
        [.chunk (.streamError "boom"), .chunk (.text "after"), .exhausted],
        none, fun _ => false, fun _ => ⟨[], none, false⟩⟩).events =
      [.error "boom", .textStart, .textDelta "after", .textEnd "after",
        .turnEnd 1 (some (.assistant [.text ⟨"after"⟩] none (some .error))) [] .error] := by
  rfl

/-- C4 (amended).  On a `stream_error` part the executor emits an error
event and sets the stop reason to ERROR, but does not break: the loop
continues with the remaining inputs (it only exits on exhaustion,
cancellation or timeout). -/
theorem c4_stream_error_continues (idleTimeout : Option Nat) (err : String)
    (rest : List LoopInput) (st : TurnState) :
    runChunkLoop idleTimeout (.chunk (.streamError err) :: rest) st =
      { state := (runChunkLoop idleTimeout rest { st with stopReason := .error }).state,
        events := .error err ::
          (runChunkLoop idleTimeout rest { st with stopReason := .error }).events,
        finished :=
          (runChunkLoop idleTimeout rest { st with stopReason := .error }).finished } := by
  simp [runChunkLoop, processChunk]

/-- The retry events the claim predicts: attempt numbers counted from
`k + 1`, one event per delay, each carrying its delay and error. -/
def expectedRetryEvents (err : Nat → String) (total : Nat) : Nat → List Nat → List TurnEvent
  | _, [] => []
  | k, d :: ds => .retry (k + 1) total d (err k) :: expectedRetryEvents err total (k + 1) ds

theorem retryLoop_all_fail (g : Nat → Option (String × Bool)) (err : Nat → String)
    (total : Nat) :
    ∀ (delays : List Nat) (k : Nat),
      (∀ i, i < delays.length + 1 → g (k + i) = some (err (k + i), true)) →
      retryLoop g total k (delays.map some ++ [none]) =
        (expectedRetryEvents err total k delays, some (err (k + delays.length)),
          delays.length + 1)
  | [], k, hg => by
    have h0 := hg 0 (by omega)
    simp only [Nat.add_zero] at h0
    simp [retryLoop, h0, expectedRetryEvents]
  | d :: ds, k, hg => by
    have h0 := hg 0 (by omega)
    simp only [Nat.add_zero] at h0
    have ih := retryLoop_all_fail g err total ds (k + 1) (fun i hi => by
      rw [show k + 1 + i = k + (i + 1) by omega]
      exact hg (i + 1) (by simpa using hi))
    rw [show k + 1 + ds.length = k + (ds.length + 1) by omega] at ih
    simp [retryLoop, h0, ih, expectedRetryEvents]

/-- C6.  With a delay schedule of length n: when every open attempt
raises a retryable error, the executor emits exactly n retry events
(attempts 1..n, total_attempts = n, each with its delay and error)
followed by one error event and a terminal turn-end with stop ERROR and a
null assistant message, having called the provider n+1 times; when the
first error is non-retryable, it emits only the error and the turn-end;
the default delay schedule is [2, 4, 8]. -/
theorem c6_retry_schedule (cfg : TurnConfig) (inp : TurnInputs) (err : Nat → String)
    (hpre : inp.preCancelled = false) :
    ((∀ i, i < (resolveRetryDelays inp.retryDelays).length + 1 →
        inp.openOutcome i = some (err i, true)) →
      runSingleTurn cfg inp =
        { events := expectedRetryEvents err (resolveRetryDelays inp.retryDelays).length 0
              (resolveRetryDelays inp.retryDelays) ++
            [.error (err (resolveRetryDelays inp.retryDelays).length),
              .turnEnd inp.turn none [] .error],
          providerCalls := (resolveRetryDelays inp.retryDelays).length + 1,
          loopFinished := true }) ∧
    (∀ e, inp.openOutcome 0 = some (e, false) →
      runSingleTurn cfg inp =
        { events := [.error e, .turnEnd inp.turn none [] .error],
          providerCalls := 1, loopFinished := true }) ∧
    resolveRetryDelays none = [2, 4, 8] := by
  refine ⟨?_, ?_, rfl⟩
  · intro hfail
    have hr := retryLoop_all_fail inp.openOutcome err
      (resolveRetryDelays inp.retryDelays).length (resolveRetryDelays inp.retryDelays) 0
      (fun i hi => by simpa using hfail i hi)
    simp only [Nat.zero_add] at hr
    simp [runSingleTurn, hpre, hr]
  · intro e he
    cases hl : (resolveRetryDelays inp.retryDelays).map some with
    | nil => simp [runSingleTurn, hpre, hl, retryLoop, he]
    | cons x xs => simp [runSingleTurn, hpre, hl, retryLoop, he]

/-- C6 witness: the retry_exhausted scenario — delays [0, 0, 0], every
attempt failing with a retryable "Always fails". -/
theorem c6_retry_schedule_witness :
    runSingleTurn ⟨some 60, fun _ => none, fun _ => false, fun _ _ => ""⟩
      ⟨1, false, some [0, 0, 0], fun _ => some ("Always fails", true), [], none,
        fun _ => false, fun _ => ⟨[], none, false⟩⟩ =
      { events := expectedRetryEvents (fun _ => "Always fails")
            (resolveRetryDelays (some [0, 0, 0])).length 0
            (resolveRetryDelays (some [0, 0, 0])) ++
          [.error "Always fails", .turnEnd 1 none [] .error],
        providerCalls := 4, loopFinished := true } :=
  (c6_retry_schedule ⟨some 60, fun _ => none, fun _ => false, fun _ _ => ""⟩
    ⟨1, false, some [0, 0, 0], fun _ => some ("Always fails", true), [], none,
      fun _ => false, fun _ => ⟨[], none, false⟩⟩
    (fun _ => "Always fails") rfl).1 (fun _ _ => rfl)

/-! ## Tool execution result (`_execute_tool`, `turn.py:148-184`) -/

/-- Modelled from the spec: `ToolResult` from `kon/core/types.py` (not in
src/) — success flag, optional result text, optional images, optional
display (§6 tool contract; field uses in `turn.py:163-176`). -/
structure ToolResult where
  success : Bool
  result : Option String
  images : Option (List ImageContent)
  display : Option String

/-- `result.result` / `result.images` truthiness (`if result.result:` /
`if result.images:`). -/
def optStrTruthy : Option String → Bool
  | none => false
  | some s => s != ""

def optListTruthy : Option (List ImageContent) → Bool
  | none => false
  | some l => !l.isEmpty

/-- The tool-result message `_execute_tool` builds when the tool exists
and `tool.execute` returns without raising (`turn.py:159-177`): the
result text when truthy, then the images when truthy, the "(no output)"
placeholder when the content stayed empty; `is_error` is the negated
success flag and `display` is passed through. -/
def buildToolResultMessage (tc : ToolCall) (res : ToolResult) : ToolResultMessage :=
  let withText : List UserPart :=
    if optStrTruthy res.result then [.text ⟨(res.result.getD "")⟩] else []
  let withImages : List UserPart :=
    withText ++ (if optListTruthy res.images then (res.images.getD []).map .image else [])
  let content :=
    if withImages.isEmpty then [UserPart.text ⟨"(no output)"⟩] else withImages
  { tool_call_id := tc.id, tool_name := tc.name, content := content,
    display := res.display, is_error := !res.success }

/-- C10.  When a tool executes without raising and its result carries
neither result text nor images, the constructed tool-result message has
exactly one content part — the literal "(no output)" text — and its
is_error flag is the negation of the result's success flag. -/
theorem c10_no_output_placeholder (tc : ToolCall) (res : ToolResult)
    (hr : res.result = none ∨ res.result = some "")
    (hi : res.images = none ∨ res.images = some []) :
    (buildToolResultMessage tc res).content = [.text ⟨"(no output)"⟩] ∧
    (buildToolResultMessage tc res).is_error = !res.success ∧
    (buildToolResultMessage tc res).tool_call_id = tc.id ∧
    (buildToolResultMessage tc res).tool_name = tc.name := by
  have hr' : optStrTruthy res.result = false := by
    cases hr with
    | inl h => simp [h, optStrTruthy]
    | inr h => simp [h, optStrTruthy]
  have hi' : optListTruthy res.images = false := by
    cases hi with
    | inl h => simp [h, optListTruthy]
    | inr h => simp [h, optListTruthy]
  simp [buildToolResultMessage, hr', hi']

/-- C10 witness: a successful tool call returning no text and no
images. -/
theorem c10_no_output_placeholder_witness :
    (buildToolResultMessage ⟨"call-1", "bash", []⟩ ⟨true, none, none, none⟩).content =
      [.text ⟨"(no output)"⟩] ∧
    (buildToolResultMessage ⟨"call-1", "bash", []⟩ ⟨true, none, none, none⟩).is_error =
      !true ∧
    (buildToolResultMessage ⟨"call-1", "bash", []⟩ ⟨true, none, none, none⟩).tool_call_id =
      "call-1" ∧
    (buildToolResultMessage ⟨"call-1", "bash", []⟩ ⟨true, none, none, none⟩).tool_name =
      "bash" :=
  c10_no_output_placeholder ⟨"call-1", "bash", []⟩ ⟨true, none, none, none⟩
    (Or.inl rfl) (Or.inl rfl)

/-! ## The compaction check (`Agent._check_compaction`, `loop.py:215-278`) -/

/-- Modelled from the spec: `is_overflow` from `kon/core/compaction.py`
(not in src/) — overflow holds iff input + output + max_output + buffer ≥
context_window (§4.5). -/
def is_overflow (usage : Usage) (contextWindow maxOutput bufferTokens : Int) : Bool :=
  decide (contextWindow ≤
    usage.input_tokens + usage.output_tokens + maxOutput + bufferTokens)

/-- The reversed scan of `loop.py:222-229`: the usage attached to the most
recent assistant message entry (`none` both when there is no assistant
entry and when it carries no usage — either way the check returns). -/
def lastAssistantUsage (entries : List SessionEntry) : Option Usage :=
  match entries.reverse.find? SessionEntry.isAssistantMessage with
  | some (.message _ (.assistant _ usage _)) => usage
  | _ => none

/-- `tokens_before` (`loop.py:241-246`). -/
def Usage.effectiveTotal (u : Usage) : Int :=
  u.input_tokens + u.output_tokens + u.cache_read_tokens + u.cache_write_tokens

/-- The events `_check_compaction` yields. -/
inductive CompactionEvent where
  | start
  | finish (tokens_before : Int) (aborted : Bool)

/-- The synthetic continue prompt (`loop.py:266-272`). -/
def continueMessageText : String :=
  "Continue if you have next steps, or stop and ask for clarification if you" ++
  " are unsure how to proceed. If there is nothing to do don't add a large" ++
  " preamble, just summarise everything so far in 2-3 lines and be done."

/-- `Agent._check_compaction` (`loop.py:215-278`).  `generate_summary` is
an LLM call, modelled by its outcome; fresh entry ids and timestamps are
passed in.  Returns the yielded events and the resulting session. -/
def checkCompaction (s : SessionState) (stopReason : StopReason)
    (contextWindow maxOutput bufferTokens : Int) (cancelSet : Bool)
    (summaryOutcome : Except String String) (onOverflow : String)
    (compId compTs msgId msgTs : String) : List CompactionEvent × SessionState :=
  if stopReason == .error then ([], s)
  else
    match lastAssistantUsage s.entries with
    | none => ([], s)
    | some lastUsage =>
      if !is_overflow lastUsage contextWindow maxOutput bufferTokens then ([], s)
      else if cancelSet then ([], s)
      else
        let tokensBefore := lastUsage.effectiveTotal
        match summaryOutcome with
        | .ok summary =>
          let firstKeptId := s.leafId.getD ""
          let s1 := applyOp s (.compaction compId compTs summary firstKeptId tokensBefore none)
          let s2 :=
            if onOverflow == "continue" then
              applyOp s1 (.message msgId msgTs (.user (.str continueMessageText)))
            else s1
          ([.start, .finish tokensBefore false], s2)
        | .error _ =>
          ([.start, .finish tokensBefore true], s)

theorem persistEntry_entries (s : SessionState) (e : SessionEntry) :
    (persistEntry s e).entries = s.entries := by
  unfold persistEntry
  split
  · rfl
  split
  · rfl
  split <;> rfl

theorem persistEntry_leafId (s : SessionState) (e : SessionEntry) :
    (persistEntry s e).leafId = s.leafId := by
  unfold persistEntry
  split
  · rfl
  split
  · rfl
  split <;> rfl

theorem appendEntry_entries (s : SessionState) (e : SessionEntry) :
    (appendEntry s e).entries = s.entries ++ [e] := by
  simp [appendEntry, persistEntry_entries]

theorem appendEntry_leafId (s : SessionState) (e : SessionEntry) :
    (appendEntry s e).leafId = some e.entryId := by
  simp [appendEntry, persistEntry_leafId]

/-- C9.  When the compaction check fires (stop reason not ERROR, a last
assistant usage exists, overflow holds, no cancellation): if summary
generation raises, it emits compaction-start then compaction-end with the
computed tokens_before and aborted = true and leaves the session
untouched; if summary generation succeeds, it appends exactly the
compaction entry (plus, in continue mode, the synthetic user message) and
emits compaction-end with aborted = false. -/
theorem c9_compaction_check (s : SessionState) (stopReason : StopReason)
    (contextWindow maxOutput bufferTokens : Int) (onOverflow : String)
    (compId compTs msgId msgTs : String) (u : Usage)
    (hsr : stopReason ≠ .error)
    (hu : lastAssistantUsage s.entries = some u)
    (hov : is_overflow u contextWindow maxOutput bufferTokens = true) :
    (∀ ex, checkCompaction s stopReason contextWindow maxOutput bufferTokens false
        (.error ex) onOverflow compId compTs msgId msgTs =
      ([.start, .finish u.effectiveTotal true], s)) ∧
    (∀ summary,
      (checkCompaction s stopReason contextWindow maxOutput bufferTokens false
        (.ok summary) onOverflow compId compTs msgId msgTs).1 =
        [.start, .finish u.effectiveTotal false] ∧
      (checkCompaction s stopReason contextWindow maxOutput bufferTokens false
        (.ok summary) onOverflow compId compTs msgId msgTs).2.entries =
        s.entries ++
          [.compaction ⟨compId, s.leafId, compTs⟩ summary (s.leafId.getD "")
            u.effectiveTotal none] ++
          (if onOverflow == "continue" then
            [.message ⟨msgId, some compId, msgTs⟩ (.user (.str continueMessageText))]
          else [])) := by
  have hsr' : (stopReason == StopReason.error) = false := by
    simp [hsr]
  constructor
  · intro ex
    simp [checkCompaction, hsr', hu, hov]
  · intro summary
    constructor
    · simp [checkCompaction, hsr', hu, hov]
    · by_cases hmode : (onOverflow == "continue") = true
      · simp [checkCompaction, hsr', hu, hov, hmode, applyOp, appendEntry_entries,
          appendEntry_leafId, SessionEntry.entryId, SessionEntry.base]
      · rw [Bool.not_eq_true] at hmode
        simp [checkCompaction, hsr', hu, hov, hmode, applyOp, appendEntry_entries]

/-- C9 witness: one assistant entry whose usage overflows a tiny context
window, in continue mode. -/
theorem c9_compaction_check_witness :
    (∀ ex, checkCompaction
        ⟨some ⟨1, "sid", "ts", "/proj"⟩,
          [.message ⟨"a1", none, "t1"⟩
            (.assistant [.text ⟨"hi"⟩] (some ⟨90, 10, 3, 4⟩) (some .stop))],
          some "a1", true, true, true, none⟩
        .tool_use 100 0 20000 false (.error ex) "continue" "c1" "t2" "m1" "t3" =
      ([.start, .finish (Usage.effectiveTotal ⟨90, 10, 3, 4⟩) true],
        ⟨some ⟨1, "sid", "ts", "/proj"⟩,
          [.message ⟨"a1", none, "t1"⟩
            (.assistant [.text ⟨"hi"⟩] (some ⟨90, 10, 3, 4⟩) (some .stop))],
          some "a1", true, true, true, none⟩)) ∧
    (∀ summary,
      (checkCompaction
        ⟨some ⟨1, "sid", "ts", "/proj"⟩,
          [.message ⟨"a1", none, "t1"⟩
            (.assistant [.text ⟨"hi"⟩] (some ⟨90, 10, 3, 4⟩) (some .stop))],
          some "a1", true, true, true, none⟩
        .tool_use 100 0 20000 false (.ok summary) "continue" "c1" "t2" "m1" "t3").1 =
        [.start, .finish (Usage.effectiveTotal ⟨90, 10, 3, 4⟩) false] ∧
      (checkCompaction
        ⟨some ⟨1, "sid", "ts", "/proj"⟩,
          [.message ⟨"a1", none, "t1"⟩
            (.assistant [.text ⟨"hi"⟩] (some ⟨90, 10, 3, 4⟩) (some .stop))],
          some "a1", true, true, true, none⟩
        .tool_use 100 0 20000 false (.ok summary) "continue" "c1" "t2" "m1" "t3").2.entries =
        [.message ⟨"a1", none, "t1"⟩
          (.assistant [.text ⟨"hi"⟩] (some ⟨90, 10, 3, 4⟩) (some .stop))] ++
          [.compaction ⟨"c1", some "a1", "t2"⟩ summary "a1"
            (Usage.effectiveTotal ⟨90, 10, 3, 4⟩) none] ++
          (if ("continue" == "continue") then
            [.message ⟨"m1", some "c1", "t3"⟩ (.user (.str continueMessageText))]
          else [])) :=
  c9_compaction_check
    ⟨some ⟨1, "sid", "ts", "/proj"⟩,
      [.message ⟨"a1", none, "t1"⟩
        (.assistant [.text ⟨"hi"⟩] (some ⟨90, 10, 3, 4⟩) (some .stop))],
      some "a1", true, true, true, none⟩
    .tool_use 100 0 20000 "continue" "c1" "t2" "m1" "t3" ⟨90, 10, 3, 4⟩
    (by decide) rfl (by decide)

/-! ## Event balance (claim C8)

A checker automaton over the emitted event sequence: it tracks the open
thinking/text block, the tool calls that have started but not ended, and
the tool call currently accepting argument deltas.  It rejects any end
without its start, any delta outside its block, and any unclosed block at
the end — i.e. it accepts exactly the event sequences the claim calls
balanced. -/

def TurnEvent.isThinkingStart : TurnEvent → Bool
  | .thinkingStart => true
  | _ => false

def TurnEvent.isThinkingEnd : TurnEvent → Bool
  | .thinkingEnd _ _ => true
  | _ => false

def TurnEvent.isTextStart : TurnEvent → Bool
  | .textStart => true
  | _ => false

def TurnEvent.isTextEnd : TurnEvent → Bool
  | .textEnd _ => true
  | _ => false

def TurnEvent.isToolStart : TurnEvent → Bool
  | .toolStart _ _ => true
  | _ => false

def TurnEvent.isToolEnd : TurnEvent → Bool
  | .toolEnd _ _ _ _ => true
  | _ => false

/-- The scanner state: which blocks are open. -/
structure EvScanState where
  openThink : Bool
  openText : Bool
  openTools : List String
  curTool : Option String

def scanEvent (a : EvScanState) : TurnEvent → Option EvScanState
  | .thinkingStart =>
    if a.openThink || a.openText then none
    else some { a with openThink := true, curTool := none }
  | .thinkingDelta _ => if a.openThink then some a else none
  | .thinkingEnd _ _ => if a.openThink then some { a with openThink := false } else none
  | .textStart =>
    if a.openThink || a.openText then none
    else some { a with openText := true, curTool := none }
  | .textDelta _ => if a.openText then some a else none
  | .textEnd _ => if a.openText then some { a with openText := false } else none
  | .toolStart id _ =>
    if a.openThink || a.openText then none
    else some { a with openTools := a.openTools ++ [id], curTool := some id }
  | .toolArgsDelta id _ => if a.curTool == some id then some a else none
  | .toolEnd id _ _ _ =>
    if a.openTools.contains id then
      some { a with
        openTools := a.openTools.erase id,
        curTool := if a.curTool == some id then none else a.curTool }
    else none
  | _ => some a

def scanEvents : List TurnEvent → EvScanState → Option EvScanState
  | [], a => some a
  | e :: rest, a =>
    match scanEvent a e with
    | none => none
    | some a' => scanEvents rest a'

/-- An event sequence is balanced when the scanner accepts it and no block
stays open: every start is matched by exactly one end, every delta lies
inside its block, every started tool call is ended. -/
def balancedEvents (evs : List TurnEvent) : Bool :=
  match scanEvents evs ⟨false, false, [], none⟩ with
  | some a => !a.openThink && !a.openText && a.openTools.isEmpty
  | none => false

/-- C8 counterexample: a thinking part with an empty delta followed by
cancellation.  The interrupt cleanup drops the empty thinking block, so a
thinking-start event is emitted but no thinking-end — the counts differ
and the sequence is unbalanced. -/
theorem c8_counterexample :
    ((runSingleTurn ⟨some 60, fun _ => none, fun _ => false, fun _ _ => ""⟩
        ⟨1, false, some [], fun _ => none, [.chunk (.think "" none), .cancel],
          none, fun _ => false, fun _ => ⟨[], none, false⟩⟩).events.countP
      TurnEvent.isThinkingStart = 1 ∧
    (runSingleTurn ⟨some 60, fun _ => none, fun _ => false, fun _ _ => ""⟩
        ⟨1, false, some [], fun _ => none, [.chunk (.think "" none), .cancel],
          none, fun _ => false, fun _ => ⟨[], none, false⟩⟩).events.countP
      TurnEvent.isThinkingEnd = 0) ∧
    (runSingleTurn ⟨some 60, fun _ => none, fun _ => false, fun _ _ => ""⟩
        ⟨1, false, some [], fun _ => none, [.chunk (.think "" none), .cancel],
          none, fun _ => false, fun _ => ⟨[], none, false⟩⟩).loopFinished = true ∧
    balancedEvents (runSingleTurn ⟨some 60, fun _ => none, fun _ => false, fun _ _ => ""⟩
        ⟨1, false, some [], fun _ => none, [.chunk (.think "" none), .cancel],
          none, fun _ => false, fun _ => ⟨[], none, false⟩⟩).events = false := by
  decide

theorem scanEvents_append (l1 l2 : List TurnEvent) (a : EvScanState) :
    scanEvents (l1 ++ l2) a =
      match scanEvents l1 a with
      | none => none
      | some a' => scanEvents l2 a' := by
  induction l1 generalizing a with
  | nil => simp [scanEvents]
  | cons e rest ih =>
    simp only [List.cons_append, scanEvents]
    cases scanEvent a e with
    | none => rfl
    | some a' => exact ih a'

theorem scanEvents_cons (e : TurnEvent) (rest : List TurnEvent) (a : EvScanState) :
    scanEvents (e :: rest) a =
      match scanEvent a e with
      | none => none
      | some a' => scanEvents rest a' := rfl

theorem scanEvents_append_some {l1 : List TurnEvent} {a a' : EvScanState}
    (h : scanEvents l1 a = some a') (l2 : List TurnEvent) :
    scanEvents (l1 ++ l2) a = scanEvents l2 a' := by
  rw [scanEvents_append, h]

theorem string_eq_empty_of_length {a : String} (h : a.length = 0) : a = "" := by
  cases a with
  | mk data =>
    simp [String.length] at h
    simp [h]

theorem append_str_ne_empty_left {a : String} (b : String) (h : a ≠ "") :
    a ++ b ≠ "" := by
  intro hc
  have hl := congrArg String.length hc
  rw [String.length_append] at hl
  simp only [show ("" : String).length = 0 from rfl, Nat.add_eq_zero] at hl
  exact h (string_eq_empty_of_length hl.1)

theorem append_str_ne_empty_right (a : String) {b : String} (h : b ≠ "") :
    a ++ b ≠ "" := by
  intro hc
  have hl := congrArg String.length hc
  rw [String.length_append] at hl
  simp only [show ("" : String).length = 0 from rfl, Nat.add_eq_zero] at hl
  exact h (string_eq_empty_of_length hl.2)

theorem join_append_one (l : List String) (s : String) :
    String.join (l ++ [s]) = String.join l ++ s := by
  show List.foldl (fun r s => r ++ s) "" (l ++ [s]) = _
  rw [List.foldl_append]
  rfl

/-- Do all think/text parts of the schedule carry a non-empty delta? -/
def nonEmptyDeltasB : List LoopInput → Bool
  | [] => true
  | .chunk (.think t _) :: rest => (t != "") && nonEmptyDeltasB rest
  | .chunk (.text t) :: rest => (t != "") && nonEmptyDeltasB rest
  | _ :: rest => nonEmptyDeltasB rest

/-- Structural facts the chunk loop maintains: the current-block variable
agrees with the in-progress tool call, and an open thinking/text block has
a non-empty buffer (given non-empty deltas) while a closed one has an
empty buffer. -/
structure WFState (st : TurnState) : Prop where
  toolIff : st.currentState = some .toolCall ↔ st.currentToolCall.isSome
  thinkNE : st.currentState = some .think → String.join st.thinkBuffer ≠ ""
  thinkNil : st.currentState ≠ some .think → st.thinkBuffer = []
  textNE : st.currentState = some .text → String.join st.textBuffer ≠ ""
  textNil : st.currentState ≠ some .text → st.textBuffer = []

/-- The scanner state the executor's state corresponds to. -/
structure SimRel (st : TurnState) (a : EvScanState) : Prop where
  hThink : a.openThink = (st.currentState == some .think)
  hText : a.openText = (st.currentState == some .text)
  hTools : a.openTools = st.pendingToolCalls.map ToolCallData.id ++
    (st.currentToolCall.map ToolCallData.id).toList
  hCur : ∀ tc, st.currentToolCall = some tc → a.curTool = some tc.id

theorem wfStateInit : WFState TurnState.init := by
  constructor <;> simp [TurnState.init]

theorem simRelInit : SimRel TurnState.init ⟨false, false, [], none⟩ := by
  constructor <;> simp [TurnState.init]

theorem WFState.currentNone {st : TurnState} (hWF : WFState st)
    (h : st.currentState ≠ some .toolCall) : st.currentToolCall = none := by
  cases hc : st.currentToolCall with
  | none => rfl
  | some tc => exact absurd (hWF.toolIff.2 (by simp [hc])) h

theorem finalize_sim (st : TurnState) (b : Bool) (hWF : WFState st) (a : EvScanState)
    (hsim : SimRel st a) :
    ∃ a', scanEvents (finalizeCurrentState st b).2 a = some a' ∧
      SimRel (finalizeCurrentState st b).1 a' ∧ WFState (finalizeCurrentState st b).1 ∧
      (finalizeCurrentState st b).1.currentState = none := by
  cases hcs : st.currentState with
  | none =>
    have hfin : finalizeCurrentState st b = (st, []) := by
      simp [finalizeCurrentState, hcs]
    rw [hfin]
    exact ⟨a, rfl, hsim, hWF, hcs⟩
  | some s =>
    cases s with
    | think =>
      have hfull := hWF.thinkNE hcs
      have hcur : st.currentToolCall = none := hWF.currentNone (by rw [hcs]; simp)
      have hopen : a.openThink = true := by
        rw [hsim.hThink, hcs]
        rfl
      have hfin : finalizeCurrentState st b =
          ({ st with
              content := st.content ++
                [.thinking ⟨String.join st.thinkBuffer, st.thinkSignature⟩],
              thinkBuffer := [], thinkSignature := none, currentState := none },
            [.thinkingEnd (String.join st.thinkBuffer) st.thinkSignature]) := by
        simp [finalizeCurrentState, hcs, hfull]
      rw [hfin]
      refine ⟨{ a with openThink := false }, ?_, ?_, ?_, ?_⟩
      · simp [scanEvents, scanEvent, hopen]
      · constructor <;> simp [hsim.hThink, hsim.hText, hsim.hTools, hcs, hcur]
      · constructor
        · simp [hcur]
        · simp
        · simp
        · intro h
          simp at h
        · intro h
          simpa using hWF.textNil (by rw [hcs]; simp)
      · rfl
    | text =>
      have hfull := hWF.textNE hcs
      have hcur : st.currentToolCall = none := hWF.currentNone (by rw [hcs]; simp)
      have hopen : a.openText = true := by
        rw [hsim.hText, hcs]
        rfl
      have hfin : finalizeCurrentState st b =
          ({ st with
              content := st.content ++ [.text ⟨String.join st.textBuffer⟩],
              textBuffer := [], currentState := none },
            [.textEnd (String.join st.textBuffer)]) := by
        simp [finalizeCurrentState, hcs, hfull]
      rw [hfin]
      refine ⟨{ a with openText := false }, ?_, ?_, ?_, ?_⟩
      · simp [scanEvents, scanEvent, hopen]
      · constructor <;> simp [hsim.hThink, hsim.hText, hsim.hTools, hcs, hcur]
      · constructor
        · simp [hcur]
        · intro h
          simp at h
        · intro h
          simpa using hWF.thinkNil (by rw [hcs]; simp)
        · intro h
          simp at h
        · simp
      · rfl
    | toolCall =>
      obtain ⟨tc, hct⟩ : ∃ tc, st.currentToolCall = some tc := by
        have hiff := hWF.toolIff.1 hcs
        cases h : st.currentToolCall with
        | none => rw [h] at hiff; simp at hiff
        | some tc => exact ⟨tc, rfl⟩
      have hfin : finalizeCurrentState st b =
          ({ st with
              pendingToolCalls := st.pendingToolCalls ++ [tc],
              currentToolCall := none, currentState := none }, []) := by
        simp [finalizeCurrentState, hcs, hct]
      rw [hfin]
      refine ⟨a, rfl, ?_, ?_, rfl⟩
      · constructor
        · rw [hsim.hThink, hcs]
          rfl
        · rw [hsim.hText, hcs]
          rfl
        · rw [hsim.hTools, hct]
          simp
        · simp
      · constructor
        · simp
        · intro h
          simp at h
        · intro h
          simpa using hWF.thinkNil (by rw [hcs]; simp)
        · intro h
          simp at h
        · intro h
          simpa using hWF.textNil (by rw [hcs]; simp)

theorem processChunk_sim_think (st : TurnState) (t : String) (sig : Option String)
    (a : EvScanState) (hWF : WFState st) (hsim : SimRel st a) (ht : t ≠ "") :
    ∃ a', scanEvents (processChunk st (.think t sig)).2 a = some a' ∧
      SimRel (processChunk st (.think t sig)).1 a' ∧
      WFState (processChunk st (.think t sig)).1 := by
  by_cases hthink : st.currentState = some .think
  · -- already in a thinking block: just the delta
    have hopen : a.openThink = true := by
      rw [hsim.hThink, hthink]
      rfl
    have hcur : st.currentToolCall = none := hWF.currentNone (by rw [hthink]; simp)
    have hpc : processChunk st (.think t sig) =
        ({ st with
            currentState := some .think,
            thinkBuffer := st.thinkBuffer ++ [t],
            thinkSignature :=
              match sig with
              | some s => if s != "" then some s else st.thinkSignature
              | none => st.thinkSignature },
          [.thinkingDelta t]) := by
      simp [processChunk, hthink]
    rw [hpc]
    refine ⟨a, ?_, ?_, ?_⟩
    · simp [scanEvents, scanEvent, hopen]
    · constructor
      · rw [hsim.hThink, hthink]
      · rw [hsim.hText, hthink]
      · rw [hsim.hTools]
      · simpa [hcur] using fun tc h => h.elim
    · constructor
      · simpa [hcur] using by rw [← hthink]
      · intro _
        rw [join_append_one]
        exact append_str_ne_empty_left t (hWF.thinkNE hthink)
      · intro h
        simp at h
      · intro h
        simp at h
      · intro _
        simpa using hWF.textNil (by rw [hthink]; simp)
  · by_cases hnone : st.currentState = none
    · -- no block open yet: start and delta
      have hbuf := hWF.thinkNil (by rw [hnone]; simp)
      have htbuf := hWF.textNil (by rw [hnone]; simp)
      have hcur : st.currentToolCall = none := hWF.currentNone (by rw [hnone]; simp)
      have hopen : a.openThink = false := by
        rw [hsim.hThink, hnone]
        rfl
      have hopent : a.openText = false := by
        rw [hsim.hText, hnone]
        rfl
      have hpc : processChunk st (.think t sig) =
          ({ st with
              currentState := some .think,
              thinkBuffer := st.thinkBuffer ++ [t],
              thinkSignature :=
                match sig with
                | some s => if s != "" then some s else st.thinkSignature
                | none => st.thinkSignature },
            [.thinkingStart, .thinkingDelta t]) := by
        simp [processChunk, hnone]
      rw [hpc]
      refine ⟨{ a with openThink := true, curTool := none }, ?_, ?_, ?_⟩
      · simp [scanEvents, scanEvent, hopen, hopent]
      · constructor
        · rfl
        · rw [hsim.hText, hnone]
          rfl
        · rw [hsim.hTools]
        · simpa [hcur] using fun tc h => h.elim
      · constructor
        · simp [hcur]
        · intro _
          rw [hbuf]
          simpa [String.join] using append_str_ne_empty_right "" ht
        · intro h
          simp at h
        · intro h
          simp at h
        · intro _
          simpa using htbuf
    · -- another block is open: finalize it, then start and delta
      have hcond : (st.currentState.isSome && st.currentState != some .think) = true := by
        cases h : st.currentState with
        | none => exact absurd h hnone
        | some s =>
          rw [h] at hthink
          simp
          intro hc
          exact hthink (by rw [hc])
      obtain ⟨a1, hscan1, hsim1, hWF1, hst1⟩ := finalize_sim st true hWF a hsim
      rcases hfe : finalizeCurrentState st true with ⟨st1, finEvs⟩
      rw [hfe] at hscan1 hsim1 hWF1 hst1
      simp only at hscan1 hsim1 hWF1 hst1
      have hbuf := hWF1.thinkNil (by rw [hst1]; simp)
      have htbuf := hWF1.textNil (by rw [hst1]; simp)
      have hcur : st1.currentToolCall = none := hWF1.currentNone (by rw [hst1]; simp)
      have hopen : a1.openThink = false := by
        rw [hsim1.hThink, hst1]
        rfl
      have hopent : a1.openText = false := by
        rw [hsim1.hText, hst1]
        rfl
      have hpc : processChunk st (.think t sig) =
          ({ st1 with
              currentState := some .think,
              thinkBuffer := st1.thinkBuffer ++ [t],
              thinkSignature :=
                match sig with
                | some s => if s != "" then some s else st1.thinkSignature
                | none => st1.thinkSignature },
            finEvs ++ [.thinkingStart, .thinkingDelta t]) := by
        simp [processChunk, hcond, hfe, hst1]
      rw [hpc]
      refine ⟨{ a1 with openThink := true, curTool := none }, ?_, ?_, ?_⟩
      · rw [scanEvents_append, hscan1]
        simp [scanEvents, scanEvent, hopen, hopent]
      · constructor
        · rfl
        · rw [hsim1.hText, hst1]
          rfl
        · rw [hsim1.hTools]
        · simpa [hcur] using fun tc h => h.elim
      · constructor
        · simp [hcur]
        · intro _
          rw [hbuf]
          simpa [String.join] using append_str_ne_empty_right "" ht
        · intro h
          simp at h
        · intro h
          simp at h
        · intro _
          simpa using htbuf

theorem processChunk_sim_text (st : TurnState) (t : String)
    (a : EvScanState) (hWF : WFState st) (hsim : SimRel st a) (ht : t ≠ "") :
    ∃ a', scanEvents (processChunk st (.text t)).2 a = some a' ∧
      SimRel (processChunk st (.text t)).1 a' ∧
      WFState (processChunk st (.text t)).1 := by
  by_cases htext : st.currentState = some .text
  · have hopen : a.openText = true := by
      rw [hsim.hText, htext]
      rfl
    have hcur : st.currentToolCall = none := hWF.currentNone (by rw [htext]; simp)
    have hpc : processChunk st (.text t) =
        ({ st with
            currentState := some .text,
            textBuffer := st.textBuffer ++ [t] },
          [.textDelta t]) := by
      simp [processChunk, htext]
    rw [hpc]
    refine ⟨a, ?_, ?_, ?_⟩
    · simp [scanEvents, scanEvent, hopen]
    · constructor
      · rw [hsim.hThink, htext]
      · rw [hsim.hText, htext]
      · rw [hsim.hTools]
      · simpa [hcur] using fun tc h => h.elim
    · constructor
      · simpa [hcur] using by rw [← htext]
      · intro h
        simp at h
      · intro _
        simpa using hWF.thinkNil (by rw [htext]; simp)
      · intro _
        rw [join_append_one]
        exact append_str_ne_empty_left t (hWF.textNE htext)
      · intro h
        simp at h
  · by_cases hnone : st.currentState = none
    · have hbuf := hWF.textNil (by rw [hnone]; simp)
      have htbuf := hWF.thinkNil (by rw [hnone]; simp)
      have hcur : st.currentToolCall = none := hWF.currentNone (by rw [hnone]; simp)
      have hopen : a.openText = false := by
        rw [hsim.hText, hnone]
        rfl
      have hopent : a.openThink = false := by
        rw [hsim.hThink, hnone]
        rfl
      have hpc : processChunk st (.text t) =
          ({ st with
              currentState := some .text,
              textBuffer := st.textBuffer ++ [t] },
            [.textStart, .textDelta t]) := by
        simp [processChunk, hnone]
      rw [hpc]
      refine ⟨{ a with openText := true, curTool := none }, ?_, ?_, ?_⟩
      · simp [scanEvents, scanEvent, hopen, hopent]
      · constructor
        · rw [hsim.hThink, hnone]
          rfl
        · rfl
        · rw [hsim.hTools]
        · simpa [hcur] using fun tc h => h.elim
      · constructor
        · simp [hcur]
        · intro h
          simp at h
        · intro _
          simpa using htbuf
        · intro _
          rw [hbuf]
          simpa [String.join] using append_str_ne_empty_right "" ht
        · intro h
          simp at h
    · have hcond : (st.currentState.isSome && st.currentState != some .text) = true := by
        cases h : st.currentState with
        | none => exact absurd h hnone
        | some s =>
          rw [h] at htext
          simp
          intro hc
          exact htext (by rw [hc])
      obtain ⟨a1, hscan1, hsim1, hWF1, hst1⟩ := finalize_sim st true hWF a hsim
      rcases hfe : finalizeCurrentState st true with ⟨st1, finEvs⟩
      rw [hfe] at hscan1 hsim1 hWF1 hst1
      simp only at hscan1 hsim1 hWF1 hst1
      have hbuf := hWF1.textNil (by rw [hst1]; simp)
      have htbuf := hWF1.thinkNil (by rw [hst1]; simp)
      have hcur : st1.currentToolCall = none := hWF1.currentNone (by rw [hst1]; simp)
      have hopen : a1.openText = false := by
        rw [hsim1.hText, hst1]
        rfl
      have hopent : a1.openThink = false := by
        rw [hsim1.hThink, hst1]
        rfl
      have hpc : processChunk st (.text t) =
          ({ st1 with
              currentState := some .text,
              textBuffer := st1.textBuffer ++ [t] },
            finEvs ++ [.textStart, .textDelta t]) := by
        simp [processChunk, hcond, hfe, hst1]
      rw [hpc]
      refine ⟨{ a1 with openText := true, curTool := none }, ?_, ?_, ?_⟩
      · rw [scanEvents_append, hscan1]
        simp [scanEvents, scanEvent, hopen, hopent]
      · constructor
        · rw [hsim1.hThink, hst1]
          rfl
        · rfl
        · rw [hsim1.hTools]
        · simpa [hcur] using fun tc h => h.elim
      · constructor
        · simp [hcur]
        · intro h
          simp at h
        · intro _
          simpa using htbuf
        · intro _
          rw [hbuf]
          simpa [String.join] using append_str_ne_empty_right "" ht
        · intro h
          simp at h

theorem processChunk_sim_toolStart (st : TurnState) (id name : String) (idx : Nat)
    (a : EvScanState) (hWF : WFState st) (hsim : SimRel st a) :
    ∃ a', scanEvents (processChunk st (.toolCallStart id name idx)).2 a = some a' ∧
      SimRel (processChunk st (.toolCallStart id name idx)).1 a' ∧
      WFState (processChunk st (.toolCallStart id name idx)).1 := by
  by_cases htool : st.currentState = some .toolCall
  · obtain ⟨tc, hct⟩ : ∃ tc, st.currentToolCall = some tc := by
      have hiff := hWF.toolIff.1 htool
      cases h : st.currentToolCall with
      | none => rw [h] at hiff; simp at hiff
      | some tc => exact ⟨tc, rfl⟩
    have hopen : a.openThink = false := by
      rw [hsim.hThink, htool]
      rfl
    have hopent : a.openText = false := by
      rw [hsim.hText, htool]
      rfl
    have hpc : processChunk st (.toolCallStart id name idx) =
        ({ st with
            pendingToolCalls := st.pendingToolCalls ++ [tc],
            argChunkCounter := 0, argTokenCount := 0,
            currentState := some .toolCall,
            currentToolCall := some ⟨id, name, ""⟩ },
          [.toolStart id name]) := by
      simp [processChunk, htool, hct]
    rw [hpc]
    refine ⟨{ a with openTools := a.openTools ++ [id], curTool := some id }, ?_, ?_, ?_⟩
    · simp [scanEvents, scanEvent, hopen, hopent]
    · constructor
      · rw [hopen]
        rfl
      · rw [hopent]
        rfl
      · rw [hsim.hTools, hct]
        simp
      · intro tc' h
        simp at h
        simp [← h]
    · constructor
      · simp
      · intro h
        simp at h
      · intro _
        simpa using hWF.thinkNil (by rw [htool]; simp)
      · intro h
        simp at h
      · intro _
        simpa using hWF.textNil (by rw [htool]; simp)
  · by_cases hnone : st.currentState = none
    · have hcur : st.currentToolCall = none := hWF.currentNone (by rw [hnone]; simp)
      have hopen : a.openThink = false := by
        rw [hsim.hThink, hnone]
        rfl
      have hopent : a.openText = false := by
        rw [hsim.hText, hnone]
        rfl
      have hpc : processChunk st (.toolCallStart id name idx) =
          ({ st with
              argChunkCounter := 0, argTokenCount := 0,
              currentState := some .toolCall,
              currentToolCall := some ⟨id, name, ""⟩ },
            [.toolStart id name]) := by
        simp [processChunk, hnone]
      rw [hpc]
      refine ⟨{ a with openTools := a.openTools ++ [id], curTool := some id }, ?_, ?_, ?_⟩
      · simp [scanEvents, scanEvent, hopen, hopent]
      · constructor
        · rw [hopen]
          rfl
        · rw [hopent]
          rfl
        · rw [hsim.hTools, hcur]
          simp
        · intro tc' h
          simp at h
          simp [← h]
      · constructor
        · simp
        · intro h
          simp at h
        · intro _
          simpa using hWF.thinkNil (by rw [hnone]; simp)
        · intro h
          simp at h
        · intro _
          simpa using hWF.textNil (by rw [hnone]; simp)
    · have hcond : (st.currentState.isSome && st.currentState != some .toolCall) = true := by
        cases h : st.currentState with
        | none => exact absurd h hnone
        | some s =>
          rw [h] at htool
          simp
          intro hc
          exact htool (by rw [hc])
      obtain ⟨a1, hscan1, hsim1, hWF1, hst1⟩ := finalize_sim st true hWF a hsim
      rcases hfe : finalizeCurrentState st true with ⟨st1, finEvs⟩
      rw [hfe] at hscan1 hsim1 hWF1 hst1
      simp only at hscan1 hsim1 hWF1 hst1
      have hcur : st1.currentToolCall = none := hWF1.currentNone (by rw [hst1]; simp)
      have hopen : a1.openThink = false := by
        rw [hsim1.hThink, hst1]
        rfl
      have hopent : a1.openText = false := by
        rw [hsim1.hText, hst1]
        rfl
      have hpc : processChunk st (.toolCallStart id name idx) =
          ({ st1 with
              argChunkCounter := 0, argTokenCount := 0,
              currentState := some .toolCall,
              currentToolCall := some ⟨id, name, ""⟩ },
            finEvs ++ [.toolStart id name]) := by
        simp [processChunk, hcond, hfe]
      rw [hpc]
      refine ⟨{ a1 with openTools := a1.openTools ++ [id], curTool := some id }, ?_, ?_, ?_⟩
      · rw [scanEvents_append, hscan1]
        simp [scanEvents, scanEvent, hopen, hopent]
      · constructor
        · rw [hopen]
          rfl
        · rw [hopent]
          rfl
        · rw [hsim1.hTools, hcur]
          simp
        · intro tc' h
          simp at h
          simp [← h]
      · constructor
        · simp
        · intro h
          simp at h
        · intro _
          simpa using hWF1.thinkNil (by rw [hst1]; simp)
        · intro h
          simp at h
        · intro _
          simpa using hWF1.textNil (by rw [hst1]; simp)

theorem processChunk_sim_toolDelta (st : TurnState) (idx : Nat) (delta : String)
    (a : EvScanState) (hWF : WFState st) (hsim : SimRel st a) :
    ∃ a', scanEvents (processChunk st (.toolCallDelta idx delta)).2 a = some a' ∧
      SimRel (processChunk st (.toolCallDelta idx delta)).1 a' ∧
      WFState (processChunk st (.toolCallDelta idx delta)).1 := by
  cases hct : st.currentToolCall with
  | none =>
    have hpc : processChunk st (.toolCallDelta idx delta) = (st, []) := by
      simp [processChunk, hct]
    rw [hpc]
    exact ⟨a, rfl, hsim, hWF⟩
  | some tc =>
    have hstate : st.currentState = some .toolCall := hWF.toolIff.2 (by simp [hct])
    have hcurv : a.curTool = some tc.id := hsim.hCur tc hct
    have hpc : processChunk st (.toolCallDelta idx delta) =
        ({ st with
            currentToolCall := some { tc with arguments := tc.arguments ++ delta },
            argChunkCounter := st.argChunkCounter + 1,
            argTokenCount := st.argTokenCount + countTokens delta },
          .toolArgsDelta tc.id delta ::
            (if st.argTokenCount + countTokens delta > toolArgsTokenDisplayThreshold &&
                (st.argChunkCounter + 1) % toolArgsTokenChunkUpdateInterval == 0 then
              [.toolArgsTokenUpdate tc.id tc.name (st.argTokenCount + countTokens delta)]
            else [])) := by
      simp [processChunk, hct]
    rw [hpc]
    refine ⟨a, ?_, ?_, ?_⟩
    · have hscan1 : scanEvent a (.toolArgsDelta tc.id delta) = some a := by
        simp [scanEvent, hcurv]
      by_cases hup : (st.argTokenCount + countTokens delta > toolArgsTokenDisplayThreshold &&
          (st.argChunkCounter + 1) % toolArgsTokenChunkUpdateInterval == 0) = true
      · simp [scanEvents, hscan1, hup, scanEvent, hcurv]
      · rw [Bool.not_eq_true] at hup
        simp [scanEvents, hscan1, hup, scanEvent, hcurv]
    · constructor
      · rw [hsim.hThink]
      · rw [hsim.hText]
      · rw [hsim.hTools, hct]
        rfl
      · intro tc' h
        simp at h
        rw [← h]
        exact hcurv
    · constructor
      · simpa using by rw [← hstate]
      · intro h
        rw [hstate] at h
        simp at h
      · intro h
        simpa using hWF.thinkNil (by rw [hstate]; simp)
      · intro h
        rw [hstate] at h
        simp at h
      · intro h
        simpa using hWF.textNil (by rw [hstate]; simp)

theorem processChunk_sim (st : TurnState) (p : StreamPart) (a : EvScanState)
    (hWF : WFState st) (hsim : SimRel st a)
    (hne : ∀ t sig, p = .think t sig → t ≠ "") (hne2 : ∀ t, p = .text t → t ≠ "") :
    ∃ a', scanEvents (processChunk st p).2 a = some a' ∧
      SimRel (processChunk st p).1 a' ∧ WFState (processChunk st p).1 := by
  cases p with
  | think t sig => exact processChunk_sim_think st t sig a hWF hsim (hne t sig rfl)
  | text t => exact processChunk_sim_text st t a hWF hsim (hne2 t rfl)
  | toolCallStart id name idx => exact processChunk_sim_toolStart st id name idx a hWF hsim
  | toolCallDelta idx delta => exact processChunk_sim_toolDelta st idx delta a hWF hsim
  | streamDone reason =>
    have hWF1 : WFState { st with stopReason := reason } :=
      ⟨hWF.toolIff, hWF.thinkNE, hWF.thinkNil, hWF.textNE, hWF.textNil⟩
    have hsim1 : SimRel { st with stopReason := reason } a :=
      ⟨hsim.hThink, hsim.hText, hsim.hTools, hsim.hCur⟩
    obtain ⟨a', h1, h2, h3, -⟩ :=
      finalize_sim { st with stopReason := reason } true hWF1 a hsim1
    exact ⟨a', h1, h2, h3⟩
  | streamError err =>
    refine ⟨a, ?_, ?_, ?_⟩
    · simp [processChunk, scanEvents, scanEvent]
    · exact ⟨hsim.hThink, hsim.hText, hsim.hTools, hsim.hCur⟩
    · exact ⟨hWF.toolIff, hWF.thinkNE, hWF.thinkNil, hWF.textNE, hWF.textNil⟩

theorem nonEmptyDeltasB_chunk_cons (p : StreamPart) (rest : List LoopInput)
    (h : nonEmptyDeltasB (.chunk p :: rest) = true) :
    (∀ t sig, p = .think t sig → t ≠ "") ∧ (∀ t, p = .text t → t ≠ "") ∧
      nonEmptyDeltasB rest = true := by
  cases p with
  | think t sig =>
    simp [nonEmptyDeltasB] at h
    refine ⟨?_, ?_, h.2⟩
    · intro t' sig' heq
      cases heq
      exact h.1
    · intro t' heq
      cases heq
  | text t =>
    simp [nonEmptyDeltasB] at h
    refine ⟨?_, ?_, h.2⟩
    · intro t' sig' heq
      cases heq
    · intro t' heq
      cases heq
      exact h.1
  | toolCallStart id name idx =>
    refine ⟨?_, ?_, ?_⟩
    · intro t sig heq
      cases heq
    · intro t heq
      cases heq
    · simpa [nonEmptyDeltasB] using h
  | toolCallDelta idx delta =>
    refine ⟨?_, ?_, ?_⟩
    · intro t sig heq
      cases heq
    · intro t heq
      cases heq
    · simpa [nonEmptyDeltasB] using h
  | streamDone r =>
    refine ⟨?_, ?_, ?_⟩
    · intro t sig heq
      cases heq
    · intro t heq
      cases heq
    · simpa [nonEmptyDeltasB] using h
  | streamError e =>
    refine ⟨?_, ?_, ?_⟩
    · intro t sig heq
      cases heq
    · intro t heq
      cases heq
    · simpa [nonEmptyDeltasB] using h

theorem runChunkLoop_sim (idle : Option Nat) :
    ∀ (inputs : List LoopInput) (st : TurnState) (a : EvScanState),
      nonEmptyDeltasB inputs = true → WFState st → SimRel st a →
      (runChunkLoop idle inputs st).finished = true →
      ∃ a', scanEvents (runChunkLoop idle inputs st).events a = some a' ∧
        SimRel (runChunkLoop idle inputs st).state a' ∧
        WFState (runChunkLoop idle inputs st).state ∧
        ((runChunkLoop idle inputs st).state.interrupted = true ∨
          (runChunkLoop idle inputs st).state.currentState = none)
  | [], st, a, _, _, _, hfin => by simp [runChunkLoop] at hfin
  | .cancel :: rest, st, a, hne, hWF, hsim, hfin => by
    have hrun : runChunkLoop idle (.cancel :: rest) st =
        ⟨{ st with interrupted := true, stopReason := .interrupted }, [], true⟩ := rfl
    rw [hrun]
    exact ⟨a, rfl, ⟨hsim.hThink, hsim.hText, hsim.hTools, hsim.hCur⟩,
      ⟨hWF.toolIff, hWF.thinkNE, hWF.thinkNil, hWF.textNE, hWF.textNil⟩, Or.inl rfl⟩
  | .timeout :: rest, st, a, hne, hWF, hsim, hfin => by
    by_cases hact : chunkTimeoutActive idle st = true
    · obtain ⟨a1, hscan1, hsim1, hWF1, hst1⟩ := finalize_sim st false hWF a hsim
      rcases hfe : finalizeCurrentState st false with ⟨st1, evs⟩
      rw [hfe] at hscan1 hsim1 hWF1 hst1
      simp only at hscan1 hsim1 hWF1 hst1
      have hrun : runChunkLoop idle (.timeout :: rest) st =
          ⟨if !st1.pendingToolCalls.isEmpty && st1.stopReason == .stop then
              { st1 with stopReason := .tool_use }
            else st1,
            .stallWarning (idle.getD 0) :: evs, true⟩ := by
        simp only [runChunkLoop, hact, hfe]
        rfl
      rw [hrun]
      by_cases hprom : (!st1.pendingToolCalls.isEmpty && st1.stopReason == .stop) = true
      · rw [if_pos hprom]
        refine ⟨a1, ?_, ?_, ?_, Or.inr hst1⟩
        · simpa [scanEvents, scanEvent] using hscan1
        · exact ⟨hsim1.hThink, hsim1.hText, hsim1.hTools, hsim1.hCur⟩
        · exact ⟨hWF1.toolIff, hWF1.thinkNE, hWF1.thinkNil, hWF1.textNE, hWF1.textNil⟩
      · rw [if_neg hprom]
        refine ⟨a1, ?_, hsim1, hWF1, Or.inr hst1⟩
        simpa [scanEvents, scanEvent] using hscan1
    · have hrun : runChunkLoop idle (.timeout :: rest) st = runChunkLoop idle rest st := by
        simp [runChunkLoop, hact]
      rw [hrun] at hfin ⊢
      exact runChunkLoop_sim idle rest st a hne hWF hsim hfin
  | .exhausted :: rest, st, a, hne, hWF, hsim, hfin => by
    obtain ⟨a1, hscan1, hsim1, hWF1, hst1⟩ := finalize_sim st true hWF a hsim
    rcases hfe : finalizeCurrentState st true with ⟨st1, evs⟩
    rw [hfe] at hscan1 hsim1 hWF1 hst1
    simp only at hscan1 hsim1 hWF1 hst1
    have hrun : runChunkLoop idle (.exhausted :: rest) st =
        ⟨if !st1.pendingToolCalls.isEmpty && st1.stopReason == .stop then
            { st1 with stopReason := .tool_use }
          else st1,
          evs, true⟩ := by
      simp only [runChunkLoop, hfe]
    rw [hrun]
    by_cases hprom : (!st1.pendingToolCalls.isEmpty && st1.stopReason == .stop) = true
    · rw [if_pos hprom]
      refine ⟨a1, hscan1, ?_, ?_, Or.inr hst1⟩
      · exact ⟨hsim1.hThink, hsim1.hText, hsim1.hTools, hsim1.hCur⟩
      · exact ⟨hWF1.toolIff, hWF1.thinkNE, hWF1.thinkNil, hWF1.textNE, hWF1.textNil⟩
    · rw [if_neg hprom]
      exact ⟨a1, hscan1, hsim1, hWF1, Or.inr hst1⟩
  | .chunk p :: rest, st, a, hne, hWF, hsim, hfin => by
    obtain ⟨hne1, hne2, hner⟩ := nonEmptyDeltasB_chunk_cons p rest hne
    obtain ⟨a1, hscan1, hsim1, hWF1⟩ := processChunk_sim st p a hWF hsim hne1 hne2
    rcases hpc : processChunk st p with ⟨st1, evs⟩
    rw [hpc] at hscan1 hsim1 hWF1
    simp only at hscan1 hsim1 hWF1
    have hrun : runChunkLoop idle (.chunk p :: rest) st =
        ⟨(runChunkLoop idle rest st1).state, evs ++ (runChunkLoop idle rest st1).events,
          (runChunkLoop idle rest st1).finished⟩ := by
      simp [runChunkLoop, hpc]
    rw [hrun] at hfin ⊢
    simp only at hfin
    obtain ⟨a2, hscan2, hsim2, hWF2, hdisj⟩ :=
      runChunkLoop_sim idle rest st1 a1 hner hWF1 hsim1 hfin
    refine ⟨a2, ?_, hsim2, hWF2, hdisj⟩
    rw [scanEvents_append, hscan1]
    exact hscan2

theorem retryLoop_scan (g : Nat → Option (String × Bool)) (total : Nat) :
    ∀ (k : Nat) (l : List (Option Nat)) (a : EvScanState),
      scanEvents (retryLoop g total k l).1 a = some a
  | _, [], _ => rfl
  | k, d :: rest, a => by
    cases hg : g k with
    | none => simp [retryLoop, hg, scanEvents]
    | some payload =>
      obtain ⟨err, retryable⟩ := payload
      by_cases hcond : (retryable && d.isSome) = true
      · rcases hrl : retryLoop g total (k + 1) rest with ⟨evs, failure, calls⟩
        have ih := retryLoop_scan g total (k + 1) rest a
        rw [hrl] at ih
        simp only at ih
        simp [retryLoop, hg, hcond, hrl, scanEvents, scanEvent, ih]
      · rw [Bool.not_eq_true] at hcond
        simp [retryLoop, hg, hcond, scanEvents]

theorem toolEndPhase_scan (cfg : TurnConfig) :
    ∀ (pending : List ToolCallData) (st : TurnState) (a : EvScanState),
      a.openThink = false → a.openText = false →
      a.openTools = pending.map ToolCallData.id →
      ∃ a', scanEvents (toolEndPhase cfg pending st).2.1 a = some a' ∧
        a'.openThink = false ∧ a'.openText = false ∧ a'.openTools = []
  | [], st, a, h1, h2, h3 => ⟨a, rfl, h1, h2, by simpa using h3⟩
  | tc :: rest, st, a, h1, h2, h3 => by
    rcases htp : toolEndPhase cfg rest
        { st with
          content := st.content ++
            [.toolCall ⟨tc.id, tc.name, (cfg.parseArgs tc.arguments).getD []⟩] } with
      ⟨stf, evs, calls⟩
    have hcontains : a.openTools.contains tc.id = true := by
      rw [h3]
      simp
    have herase : a.openTools.erase tc.id = rest.map ToolCallData.id := by
      rw [h3]
      simp [List.erase_cons_head]
    obtain ⟨a', hscan, ho1, ho2, ho3⟩ := toolEndPhase_scan cfg rest
      { st with
        content := st.content ++
          [.toolCall ⟨tc.id, tc.name, (cfg.parseArgs tc.arguments).getD []⟩] }
      { a with
        openTools := a.openTools.erase tc.id,
        curTool := if a.curTool == some tc.id then none else a.curTool }
      h1 h2 (by simpa using herase)
    rw [htp] at hscan
    simp only at hscan
    refine ⟨a', ?_, ho1, ho2, ho3⟩
    simp only [toolEndPhase, htp]
    rw [scanEvents_cons]
    have hse : scanEvent a (.toolEnd tc.id tc.name ((cfg.parseArgs tc.arguments).getD [])
        (if cfg.hasTool tc.name then
          cfg.toolDisplay tc.name ((cfg.parseArgs tc.arguments).getD []) else "")) =
        some { a with
          openTools := a.openTools.erase tc.id,
          curTool := if a.curTool == some tc.id then none else a.curTool } := by
      have hmem : tc.id ∈ a.openTools := by simpa using hcontains
      simp [scanEvent, hmem]
    rw [hse]
    exact hscan

theorem execPhase_scan (c : Nat → Bool) (e : Nat → ExecOut) :
    ∀ (i : Nat) (calls : List ToolCall) (a : EvScanState),
      scanEvents (execPhase c e i calls).2 a = some a
  | _, [], _ => rfl
  | i, tc :: rest, a => by
    rcases hep : execPhase c e (i + 1) rest with ⟨results, evs⟩
    have ih := execPhase_scan c e (i + 1) rest a
    rw [hep] at ih
    simp only at ih
    simp [execPhase, hep, scanEvents, scanEvent, ih]

theorem scan_optional_interrupted (b : Bool) (m : String) (a : EvScanState) :
    scanEvents (if b then [TurnEvent.interrupted m] else []) a = some a := by
  cases b <;> simp [scanEvents, scanEvent]

/-- C8 (amended).  Over any interleaving of stream parts, cancellation and
idle timeout, provided the run completes (the chunk loop reaches one of
its exits) and every thinking/text delta is non-empty, the emitted event
sequence is balanced: thinking-, text- and tool-start events are matched
one-to-one by their end events, and no delta event falls outside its
start/end pair.  (With an empty delta the claim fails: interrupt/timeout
cleanup drops empty blocks after their start event was emitted — see the
counterexample.) -/
theorem c8_event_balance (cfg : TurnConfig) (inp : TurnInputs)
    (hne : nonEmptyDeltasB inp.loopInputs = true)
    (hfin : (runSingleTurn cfg inp).loopFinished = true) :
    balancedEvents (runSingleTurn cfg inp).events = true := by
  by_cases hpre : inp.preCancelled = true
  · simp [runSingleTurn, hpre, balancedEvents, scanEvents, scanEvent]
  · rw [Bool.not_eq_true] at hpre
    rcases hrl : retryLoop inp.openOutcome (resolveRetryDelays inp.retryDelays).length 0
        ((resolveRetryDelays inp.retryDelays).map some ++ [none]) with
      ⟨retryEvs, failure, calls⟩
    have hretscan : ∀ a : EvScanState, scanEvents retryEvs a = some a := by
      intro a
      have h := retryLoop_scan inp.openOutcome (resolveRetryDelays inp.retryDelays).length 0
        ((resolveRetryDelays inp.retryDelays).map some ++ [none]) a
      rw [hrl] at h
      exact h
    cases failure with
    | some err =>
      have hrun : runSingleTurn cfg inp =
          { events := retryEvs ++ [.error err, .turnEnd inp.turn none [] .error],
            providerCalls := calls, loopFinished := true } := by
        simp [runSingleTurn, hpre, hrl]
      rw [hrun]
      simp only [balancedEvents]
      rw [scanEvents_append, hretscan]
      simp [scanEvents, scanEvent]
    | none =>
      rcases hif : (if (runChunkLoop cfg.idleTimeout inp.loopInputs TurnState.init).state.interrupted
          then finalizeCurrentState
            (runChunkLoop cfg.idleTimeout inp.loopInputs TurnState.init).state false
          else ((runChunkLoop cfg.idleTimeout inp.loopInputs TurnState.init).state, [])) with
        ⟨st1, intEvs⟩
      rcases htp : toolEndPhase cfg st1.pendingToolCalls st1 with ⟨st2, endEvs, finalized⟩
      rcases hep : execPhase inp.cancelAtExec inp.execOutcome 0 finalized with
        ⟨results, resEvs⟩
      have hrun : runSingleTurn cfg inp =
          { events := retryEvs ++
              (runChunkLoop cfg.idleTimeout inp.loopInputs TurnState.init).events ++
              intEvs ++ endEvs ++ resEvs ++
              (if st2.interrupted then [.interrupted "Interrupted by user"] else []) ++
              [.turnEnd inp.turn
                (some (.assistant st2.content inp.streamUsage (some st2.stopReason)))
                results st2.stopReason],
            providerCalls := calls,
            loopFinished :=
              (runChunkLoop cfg.idleTimeout inp.loopInputs TurnState.init).finished } := by
        simp only [runSingleTurn, hpre, Bool.false_eq_true, if_false, hrl, hif, htp, hep]
      have hfin2 : (runChunkLoop cfg.idleTimeout inp.loopInputs TurnState.init).finished =
          true := by
        rw [hrun] at hfin
        exact hfin
      obtain ⟨a1, hscan1, hsim1, hWF1, hdisj⟩ := runChunkLoop_sim cfg.idleTimeout
        inp.loopInputs TurnState.init ⟨false, false, [], none⟩ hne wfStateInit simRelInit
        hfin2
      -- the interrupt cleanup (or the loop exit itself) leaves no open block
      have hpost : ∃ a2, scanEvents intEvs a1 = some a2 ∧ SimRel st1 a2 ∧ WFState st1 ∧
          st1.currentState = none := by
        cases hint : (runChunkLoop cfg.idleTimeout inp.loopInputs TurnState.init).state.interrupted with
        | true =>
          rw [hint] at hif
          simp only [if_true] at hif
          obtain ⟨a2, h1, h2, h3, h4⟩ := finalize_sim
            (runChunkLoop cfg.idleTimeout inp.loopInputs TurnState.init).state false hWF1 a1
            hsim1
          rw [hif] at h1 h2 h3 h4
          simp only at h1 h2 h3 h4
          exact ⟨a2, h1, h2, h3, h4⟩
        | false =>
          rw [hint] at hif
          simp only [Bool.false_eq_true, if_false] at hif
          have hnone : (runChunkLoop cfg.idleTimeout inp.loopInputs TurnState.init).state.currentState = none := by
            cases hdisj with
            | inl h => rw [h] at hint; cases hint
            | inr h => exact h
          obtain ⟨hst1, hint1⟩ : st1 = (runChunkLoop cfg.idleTimeout inp.loopInputs TurnState.init).state ∧ intEvs = [] := by
            have h1 := congrArg Prod.fst hif
            have h2 := congrArg Prod.snd hif
            simp at h1 h2
            exact ⟨h1.symm, h2⟩
          subst hst1
          rw [hint1]
          exact ⟨a1, rfl, hsim1, hWF1, hnone⟩
      obtain ⟨a2, hscan2, hsim2, hWF2, hst1none⟩ := hpost
      have hcur : st1.currentToolCall = none := hWF2.currentNone (by rw [hst1none]; simp)
      have hopen : a2.openThink = false := by
        rw [hsim2.hThink, hst1none]
        rfl
      have hopent : a2.openText = false := by
        rw [hsim2.hText, hst1none]
        rfl
      have htools : a2.openTools = st1.pendingToolCalls.map ToolCallData.id := by
        rw [hsim2.hTools, hcur]
        simp
      obtain ⟨a3, hscan3, ho1, ho2, ho3⟩ :=
        toolEndPhase_scan cfg st1.pendingToolCalls st1 a2 hopen hopent htools
      rw [htp] at hscan3
      simp only at hscan3
      have hscan4 := execPhase_scan inp.cancelAtExec inp.execOutcome 0 finalized a3
      rw [hep] at hscan4
      simp only at hscan4
      have h01 : scanEvents (retryEvs ++
          (runChunkLoop cfg.idleTimeout inp.loopInputs TurnState.init).events)
          ⟨false, false, [], none⟩ = some a1 := by
        rw [scanEvents_append_some (hretscan ⟨false, false, [], none⟩)]
        exact hscan1
      have h02 : scanEvents ((retryEvs ++
          (runChunkLoop cfg.idleTimeout inp.loopInputs TurnState.init).events) ++ intEvs)
          ⟨false, false, [], none⟩ = some a2 := by
        rw [scanEvents_append_some h01]
        exact hscan2
      have h03 : scanEvents (((retryEvs ++
          (runChunkLoop cfg.idleTimeout inp.loopInputs TurnState.init).events) ++ intEvs) ++
          endEvs) ⟨false, false, [], none⟩ = some a3 := by
        rw [scanEvents_append_some h02]
        exact hscan3
      have h04 : scanEvents ((((retryEvs ++
          (runChunkLoop cfg.idleTimeout inp.loopInputs TurnState.init).events) ++ intEvs) ++
          endEvs) ++ resEvs) ⟨false, false, [], none⟩ = some a3 := by
        rw [scanEvents_append_some h03]
        exact hscan4
      have h05 : scanEvents (((((retryEvs ++
          (runChunkLoop cfg.idleTimeout inp.loopInputs TurnState.init).events) ++ intEvs) ++
          endEvs) ++ resEvs) ++
          (if st2.interrupted then [TurnEvent.interrupted "Interrupted by user"] else []))
          ⟨false, false, [], none⟩ = some a3 := by
        rw [scanEvents_append_some h04]
        exact scan_optional_interrupted st2.interrupted "Interrupted by user" a3
      have hevents : (runSingleTurn cfg inp).events = (((((retryEvs ++
          (runChunkLoop cfg.idleTimeout inp.loopInputs TurnState.init).events) ++ intEvs) ++
          endEvs) ++ resEvs) ++
          (if st2.interrupted then [TurnEvent.interrupted "Interrupted by user"] else [])) ++
          [.turnEnd inp.turn
            (some (.assistant st2.content inp.streamUsage (some st2.stopReason)))
            results st2.stopReason] := by
        rw [hrun]
      rw [hevents]
      simp only [balancedEvents]
      rw [scanEvents_append_some h05]
      simp [scanEvents, scanEvent, ho1, ho2, ho3]

/-- C8 witness: a full scenario — thinking, text, a tool call with an
argument delta, stream-done and exhaustion — scans as balanced. -/
theorem c8_event_balance_witness :
    balancedEvents (runSingleTurn ⟨some 60, fun _ => none, fun _ => true, fun _ _ => "read()"⟩
      ⟨1, false, some [], fun _ => none,
        [.chunk (.think "Let me think" none), .chunk (.text "Hello"),
          .chunk (.toolCallStart "call-1" "read" 0), .chunk (.toolCallDelta 0 "path"),
          .chunk (.streamDone .tool_use), .exhausted],
        some ⟨10, 5, 2, 0⟩, fun _ => false,
        fun _ => ⟨[.text ⟨"file contents"⟩], none, false⟩⟩).events = true :=
  c8_event_balance ⟨some 60, fun _ => none, fun _ => true, fun _ _ => "read()"⟩
    ⟨1, false, some [], fun _ => none,
      [.chunk (.think "Let me think" none), .chunk (.text "Hello"),
        .chunk (.toolCallStart "call-1" "read" 0), .chunk (.toolCallDelta 0 "path"),
        .chunk (.streamDone .tool_use), .exhausted],
      some ⟨10, 5, 2, 0⟩, fun _ => false,
      fun _ => ⟨[.text ⟨"file contents"⟩], none, false⟩⟩
    (by decide) (by decide)

end Kon
